import Mathlib

/-!
Buffered reader with read timeouts (`reader.go`).

A shallow embedding of the buffered `Reader` of package `timeout`.

* Bytes, cursors and counts are natural numbers (the Go `int` cursors only ever
  grow or are reset by `copy`, so they never become negative).
* The destination slice `p` of a slice read is represented by its length; the
  functions return the bytes they stored into `p`, in order.
* The goroutine started by `go rd.readToChannel()` and the channel `rd.ch` are
  represented by the boolean `ch` (`rd.ch != nil`) and by two bookkeeping
  fields that count the reads against the underlying source that are in
  flight.  What the source delivers and when the timer of `time.After(d)`
  fires is given to each call as the list of events its `select` observes, in
  the order it observes them; the duration `d` only influences where the
  deadline stands in that list.
* A Go run-time panic (slice or index out of range) and a call that keeps
  waiting are explicit outcomes.
-/

namespace Timeout

/-- Go `error` values: the marker `ErrTimeout{}` of `timeout.go`, or any other
error value (identified by a number).  The Go value `nil` is
`none : Option Error`.  The underlying source may report either kind: an
`io.Reader` such as the package's own `ReaderWithTimeout` returns
`ErrTimeout{}`. -/
inductive Error where
  | ErrTimeout : Error
  | source (code : Nat) : Error
deriving DecidableEq, Repr

/-- What one `rd.rd.Read(slice)` of the underlying source reports: the bytes it
stored at the front of the slice it was given (`n` is their number) and its
error (`none` is `nil`). -/
structure ReadResult where
  data : List Nat
  err : Option Error
deriving DecidableEq, Repr

/-- One event observed by `select` in a timed call: the timer channel `c`
fires, or the result `s` of the background read arrives on `rd.ch`. -/
inductive Event where
  | deadline : Event
  | done (s : ReadResult) : Event
deriving DecidableEq, Repr

/-- The `Reader` struct.  `ch` is `rd.ch != nil`.  `inflight` counts the reads
against the underlying source that were started and whose result has not been
taken yet; `overlap` records whether a read against the source was ever started
while another one was in flight. -/
structure Reader where
  buf : List Nat
  l : Nat
  r : Nat
  ch : Bool
  inflight : Nat
  overlap : Bool
deriving DecidableEq, Repr

/-- Ways in which a call does not return: a Go run-time panic, waiting (in
`select`, on `rd.ch` or inside a synchronous read) in the given state with no
further event, or an event that cannot happen (a result although no read is in
flight, or more bytes than the slice handed to the source can hold). -/
inductive Fault where
  | panic : Fault
  | blocked (rd : Reader) : Fault
  | impossible : Fault
deriving DecidableEq, Repr

def defaultBufSize : Int := 4096

def minReadBufferSize : Int := 16

/-- Bookkeeping for a read against the source that starts now. -/
def startSourceRead (rd : Reader) : Reader :=
  { rd with inflight := rd.inflight + 1, overlap := rd.overlap || decide (0 < rd.inflight) }

/-- `go rd.readToChannel()`: the goroutine calls `rd.rd.Read(rd.buf[rd.r:])`;
slicing panics when `rd.r` exceeds `len(rd.buf)`. -/
def goReadToChannel (rd : Reader) : Except Fault Reader :=
  if rd.r ≤ rd.buf.length then .ok (startSourceRead rd) else .error .panic

/-- Go `make([]byte, size)`: a slice of `size` zero bytes.  It panics (or the
program dies for want of memory) when `size` is negative or more than the
run-time system can allocate; `maxLen`, the largest length that can be
allocated, belongs to the platform and is a parameter here. -/
def makeBytes (maxLen : Nat) (size : Int) : Except Fault (List Nat) :=
  if size < 0 ∨ (maxLen : Int) < size then .error .panic
  else .ok (List.replicate size.toNat 0)

/-- `NewReaderSize(rd, size)`, where `make` can allocate up to `maxLen` bytes. -/
def NewReaderSize (maxLen : Nat) (size : Int) : Except Fault Reader :=
  let size := if size < minReadBufferSize then minReadBufferSize else size
  match makeBytes maxLen size with
  | .error f => .error f
  | .ok buf =>
    .ok (startSourceRead
      { buf := buf, l := 0, r := 0, ch := true, inflight := 0, overlap := false })

/-- `NewReader(rd)`. -/
def NewReader (maxLen : Nat) : Except Fault Reader := NewReaderSize maxLen defaultBufSize

/-- Go slice expression `buf[lo:hi]` on a slice with `len = cap`. -/
def slice (buf : List Nat) (lo hi : Nat) : Except Fault (List Nat) :=
  if lo ≤ hi ∧ hi ≤ buf.length then .ok ((buf.drop lo).take (hi - lo)) else .error .panic

/-- Go index expression `buf[i]`. -/
def index (buf : List Nat) (i : Nat) : Except Fault Nat :=
  match buf.get? i with
  | some b => .ok b
  | none => .error .panic

/-- Go builtin `copy(dst, src)` (overlap-safe): the new contents of `dst` and
the number of bytes copied. -/
def copy (dst src : List Nat) : List Nat × Nat :=
  let n := min dst.length src.length
  (src.take n ++ dst.drop n, n)

/-- `rd.shiftBufLeft()`. -/
def shiftBufLeft (rd : Reader) : Except Fault Reader :=
  if rd.l > 0 then
    match slice rd.buf rd.l rd.r with
    | .error f => .error f
    | .ok src => .ok { rd with buf := (copy rd.buf src).1, r := (copy rd.buf src).2, l := 0 }
  else .ok rd

/-- `rd.isEmpty()`. -/
def isEmpty (rd : Reader) : Bool := rd.l == rd.r

/-- `rd.isFull()`. -/
def isFull (rd : Reader) : Bool := rd.r == rd.buf.length

/-- `rd.copyBufTo(p)` for a destination of length `p`: the reader, the bytes
stored into `p` and their count. -/
def copyBufTo (rd : Reader) (p : Nat) : Except Fault (Reader × List Nat × Nat) :=
  match slice rd.buf rd.l rd.r with
  | .error f => .error f
  | .ok src =>
    let count := min p src.length
    .ok ({ rd with l := rd.l + count }, src.take count, count)

/-- `rd.readIfNotReading()`. -/
def readIfNotReading (rd : Reader) : Except Fault Reader :=
  if rd.ch = false then
    match shiftBufLeft { rd with ch := true } with
    | .error f => .error f
    | .ok rd1 => goReadToChannel rd1
  else .ok rd

/-- `s := <-rd.ch`: take the result of the background read.  Its bytes were
stored by `readToChannel` into `rd.buf[rd.r:]`. -/
def recv (rd : Reader) (s : ReadResult) : Except Fault Reader :=
  if rd.ch = false ∨ rd.inflight = 0 then .error .impossible
  else if rd.buf.length < rd.r + s.data.length then .error .impossible
  else .ok { rd with
    buf := rd.buf.take rd.r ++ s.data ++ rd.buf.drop (rd.r + s.data.length),
    inflight := rd.inflight - 1 }

/-- What a slice read returns: `n`, the bytes stored into `p[0:n]`, `err`. -/
structure SliceRet where
  n : Nat
  data : List Nat
  err : Option Error
deriving DecidableEq, Repr

/-- Either the loop goes round again with state `σ`, or the call returns. -/
inductive Step (σ ρ : Type) where
  | again (s : σ) : Step σ ρ
  | ret (rd : Reader) (x : ρ) : Step σ ρ

/-- Loop state of `ReadWithTimeout`: the reader, `n`, the bytes stored so far
and the length of what is left of `p`. -/
structure SliceLoop where
  rd : Reader
  n : Nat
  out : List Nat
  p : Nat

/-- One `select` of the loop of `ReadWithTimeout`. -/
def ReadWithTimeout.select (st : SliceLoop) : Event → Except Fault (Step SliceLoop SliceRet)
  | .deadline =>
    .ok (.ret st.rd ⟨st.n, st.out, if st.n = 0 then some .ErrTimeout else none⟩)
  | .done s =>
    match recv st.rd s with
    | .error f => .error f
    | .ok rd0 =>
      let rd1 := { rd0 with r := rd0.r + s.data.length }
      let bufFull := isFull rd1
      match copyBufTo rd1 st.p with
      | .error f => .error f
      | .ok (rd2, bytes, count) =>
        let n := st.n + count
        let out := st.out ++ bytes
        let p := st.p - count
        if p = 0 ∨ s.err ≠ none then
          .ok (.ret { rd2 with ch := false } ⟨n, out, s.err⟩)
        else if bufFull then
          match shiftBufLeft rd2 with
          | .error f => .error f
          | .ok rd3 =>
            match goReadToChannel rd3 with
            | .error f => .error f
            | .ok rd4 => .ok (.again ⟨rd4, n, out, p⟩)
        else
          .ok (.ret { rd2 with ch := false } ⟨n, out, none⟩)

/-- The `for { select { ... } }` loop of `ReadWithTimeout`. -/
def ReadWithTimeout.loop (st : SliceLoop) : List Event → Except Fault (Reader × SliceRet)
  | [] => .error (.blocked st.rd)
  | e :: es =>
    match ReadWithTimeout.select st e with
    | .error f => .error f
    | .ok (.ret rd x) => .ok (rd, x)
    | .ok (.again st1) => ReadWithTimeout.loop st1 es

/-- The part of `ReadWithTimeout` from `rd.readIfNotReading()` on. -/
def ReadWithTimeout.wait (st : SliceLoop) (evs : List Event) : Except Fault (Reader × SliceRet) :=
  match readIfNotReading st.rd with
  | .error f => .error f
  | .ok rd1 => ReadWithTimeout.loop { st with rd := rd1 } evs

/-- `rd.ReadWithTimeout(p, d)` with `len(p) = p`. -/
def ReadWithTimeout (rd : Reader) (p : Nat) (evs : List Event) : Except Fault (Reader × SliceRet) :=
  if !isEmpty rd then
    match copyBufTo rd p with
    | .error f => .error f
    | .ok (rd1, bytes, count) =>
      if p - count = 0 then .ok (rd1, ⟨count, bytes, none⟩)
      else ReadWithTimeout.wait ⟨rd1, count, bytes, p - count⟩ evs
  else ReadWithTimeout.wait ⟨rd, 0, [], p⟩ evs

/-- Bookkeeping for a synchronous read against the source that has returned. -/
def finishSourceRead (rd : Reader) : Reader :=
  { rd with inflight := rd.inflight - 1 }

/-- The direct synchronous `rd.rd.Read(p)` of `Read` with `len(p) = p`: its
result is the next one the source delivers. -/
def syncRead (rd : Reader) (p : Nat) : List ReadResult → Except Fault (Reader × ReadResult)
  | [] => .error (.blocked (startSourceRead rd))
  | t :: _ =>
    if p < t.data.length then .error .impossible
    else .ok (finishSourceRead (startSourceRead rd), t)

/-- The part of `Read` from `if rd.ch != nil` on; `rs` are the results the
source delivers during the call, in order. -/
def Read.rest (st : SliceLoop) (rs : List ReadResult) : Except Fault (Reader × SliceRet) :=
  if st.rd.ch then
    match rs with
    | [] => .error (.blocked st.rd)
    | s :: rs1 =>
      match recv st.rd s with
      | .error f => .error f
      | .ok rd0 =>
        let rd1 := { rd0 with r := rd0.r + s.data.length }
        let bufFull := isFull rd1
        match copyBufTo rd1 st.p with
        | .error f => .error f
        | .ok (rd2, bytes, count) =>
          let n := st.n + count
          let out := st.out ++ bytes
          if s.err ≠ none then
            .ok (rd2, ⟨n, out, s.err⟩)
          else
            let p := st.p - count
            if bufFull then
              match syncRead rd2 p rs1 with
              | .error f => .error f
              | .ok (rd3, t) =>
                .ok ({ rd3 with ch := false },
                  ⟨n + t.data.length, out ++ t.data, t.err⟩)
            else
              .ok ({ rd2 with ch := false }, ⟨n, out, none⟩)
  else
    match syncRead st.rd st.p rs with
    | .error f => .error f
    | .ok (rd1, t) =>
      .ok (rd1, ⟨st.n + t.data.length, st.out ++ t.data, t.err⟩)

/-- `rd.Read(p)` with `len(p) = p`. -/
def Read (rd : Reader) (p : Nat) (rs : List ReadResult) : Except Fault (Reader × SliceRet) :=
  if !isEmpty rd then
    match copyBufTo rd p with
    | .error f => .error f
    | .ok (rd1, bytes, count) => Read.rest ⟨rd1, count, bytes, p - count⟩ rs
  else Read.rest ⟨rd, 0, [], p⟩ rs

/-- What a byte read returns. -/
structure ByteRet where
  c : Nat
  err : Option Error
deriving DecidableEq, Repr

/-- One `select` of the loop of `ReadByteWithTimeout`. -/
def ReadByteWithTimeout.select (rd : Reader) : Event → Except Fault (Step Reader ByteRet)
  | .deadline => .ok (.ret rd ⟨0, some .ErrTimeout⟩)
  | .done s =>
    match recv rd s with
    | .error f => .error f
    | .ok rd0 =>
      let rd1 := { rd0 with r := rd0.r + s.data.length }
      if !isEmpty rd1 ∨ s.err ≠ none then
        let rd2 := { rd1 with ch := false }
        match index rd2.buf rd2.l with
        | .error f => .error f
        | .ok c => .ok (.ret { rd2 with l := rd2.l + 1 } ⟨c, s.err⟩)
      else
        match shiftBufLeft rd1 with
        | .error f => .error f
        | .ok rd2 =>
          match goReadToChannel rd2 with
          | .error f => .error f
          | .ok rd3 => .ok (.again rd3)

/-- The `for { select { ... } }` loop of `ReadByteWithTimeout`. -/
def ReadByteWithTimeout.loop (rd : Reader) : List Event → Except Fault (Reader × ByteRet)
  | [] => .error (.blocked rd)
  | e :: es =>
    match ReadByteWithTimeout.select rd e with
    | .error f => .error f
    | .ok (.ret rd1 x) => .ok (rd1, x)
    | .ok (.again rd1) => ReadByteWithTimeout.loop rd1 es

/-- `rd.ReadByteWithTimeout(d)`. -/
def ReadByteWithTimeout (rd : Reader) (evs : List Event) : Except Fault (Reader × ByteRet) :=
  if !isEmpty rd then
    match index rd.buf rd.l with
    | .error f => .error f
    | .ok c => .ok ({ rd with l := rd.l + 1 }, ⟨c, none⟩)
  else
    match readIfNotReading rd with
    | .error f => .error f
    | .ok rd1 => ReadByteWithTimeout.loop rd1 evs

/-! ### `unicode/utf8`

`ReadRuneWithTimeout` calls `utf8.FullRune` and `utf8.DecodeRune` of the Go
standard library.  They are transcribed here from the library; the 256-entry
table `first` is given by the ranges of its entries. -/

namespace utf8

def RuneError : Nat := 0xFFFD

def RuneSelf : Nat := 0x80

def locb : Nat := 0x80

def hicb : Nat := 0xBF

def maskx : Nat := 0x3F

def mask2 : Nat := 0x1F

def mask3 : Nat := 0x0F

def mask4 : Nat := 0x07

/-- Entry `xx` (invalid: size 1). -/
def xx : Nat := 0xF1

/-- Entry `as` (ASCII: size 1). -/
def as : Nat := 0xF0

def s1 : Nat := 0x02

def s2 : Nat := 0x13

def s3 : Nat := 0x03

def s4 : Nat := 0x23

def s5 : Nat := 0x34

def s6 : Nat := 0x04

def s7 : Nat := 0x44

/-- The table `first`: information about the first byte of a sequence. -/
def first (b : Nat) : Nat :=
  if b < 0x80 then as
  else if b < 0xC2 then xx
  else if b < 0xE0 then s1
  else if b = 0xE0 then s2
  else if b < 0xED then s3
  else if b = 0xED then s4
  else if b < 0xF0 then s3
  else if b = 0xF0 then s5
  else if b < 0xF4 then s6
  else if b = 0xF4 then s7
  else xx

/-- The table `acceptRanges` (`lo`, `hi`); the entries not listed are zero. -/
def acceptRanges : Nat → Nat × Nat
  | 0 => (locb, hicb)
  | 1 => (0xA0, hicb)
  | 2 => (locb, 0x9F)
  | 3 => (0x90, hicb)
  | 4 => (locb, 0x8F)
  | _ => (0, 0)

/-- `utf8.FullRune(p)`. -/
def FullRune (p : List Nat) : Bool :=
  let n := p.length
  if n = 0 then false
  else
    let x := first (p.getD 0 0)
    if n ≥ x &&& 7 then true
    else
      let accept := acceptRanges (x >>> 4)
      if n > 1 ∧ (p.getD 1 0 < accept.1 ∨ accept.2 < p.getD 1 0) then true
      else if n > 2 ∧ (p.getD 2 0 < locb ∨ hicb < p.getD 2 0) then true
      else false

/-- `utf8.DecodeRune(p)`: the rune and its width.  The branch-free mask of the
library for `x >= as` selects `RuneError` when the low bit of `x` is set
(`xx`) and the byte itself otherwise (`as`). -/
def DecodeRune (p : List Nat) : Nat × Nat :=
  let n := p.length
  if n < 1 then (RuneError, 0)
  else
    let p0 := p.getD 0 0
    let x := first p0
    if x ≥ as then
      (if x &&& 1 = 1 then RuneError else p0, 1)
    else
      let sz := x &&& 7
      let accept := acceptRanges (x >>> 4)
      if n < sz then (RuneError, 1)
      else
        let b1 := p.getD 1 0
        if b1 < accept.1 ∨ accept.2 < b1 then (RuneError, 1)
        else if sz ≤ 2 then ((p0 &&& mask2) <<< 6 ||| (b1 &&& maskx), 2)
        else
          let b2 := p.getD 2 0
          if b2 < locb ∨ hicb < b2 then (RuneError, 1)
          else if sz ≤ 3 then
            ((p0 &&& mask3) <<< 12 ||| (b1 &&& maskx) <<< 6 ||| (b2 &&& maskx), 3)
          else
            let b3 := p.getD 3 0
            if b3 < locb ∨ hicb < b3 then (RuneError, 1)
            else
              ((p0 &&& mask4) <<< 18 ||| (b1 &&& maskx) <<< 12 ||| (b2 &&& maskx) <<< 6
                ||| (b3 &&& maskx), 4)

/-- The UTF-8 encoding of a code point (RFC 3629), as `utf8.EncodeRune` produces
it for a valid one. -/
def encodeRune (c : Nat) : List Nat :=
  if c < 0x80 then [c]
  else if c < 0x800 then [0xC0 + c / 64, 0x80 + c % 64]
  else if c < 0x10000 then [0xE0 + c / 4096, 0x80 + c / 64 % 64, 0x80 + c % 64]
  else [0xF0 + c / 262144, 0x80 + c / 4096 % 64, 0x80 + c / 64 % 64, 0x80 + c % 64]

/-- A code point that has a UTF-8 encoding: at most `MaxRune` and no surrogate
half (`utf8.ValidRune`). -/
def ValidRune (c : Nat) : Prop :=
  c < 0xD800 ∨ (0xDFFF < c ∧ c ≤ 0x10FFFF)

instance (c : Nat) : Decidable (ValidRune c) := by
  unfold ValidRune; infer_instance

/-- What `first` and `acceptRanges` hold for the first byte `b0` of a sequence
of `w` bytes whose second byte is `b1`. -/
def Lead (b0 b1 w : Nat) : Prop :=
  first b0 &&& 7 = w ∧ first b0 < as ∧
    (acceptRanges (first b0 >>> 4)).1 ≤ b1 ∧ b1 ≤ (acceptRanges (first b0 >>> 4)).2

end utf8

/-- What a rune read returns. -/
structure RuneRet where
  r : Nat
  size : Nat
  err : Option Error
deriving DecidableEq, Repr

/-- The lines `r, size = rune(rd.buf[rd.l]), 1; if r >= utf8.RuneSelf {...};
rd.l += size` of `ReadRuneWithTimeout` (they occur twice). -/
def takeRune (rd : Reader) : Except Fault (Reader × Nat × Nat) :=
  match index rd.buf rd.l with
  | .error f => .error f
  | .ok b =>
    if b ≥ utf8.RuneSelf then
      match slice rd.buf rd.l rd.r with
      | .error f => .error f
      | .ok src =>
        .ok ({ rd with l := rd.l + (utf8.DecodeRune src).2 },
          (utf8.DecodeRune src).1, (utf8.DecodeRune src).2)
    else .ok ({ rd with l := rd.l + 1 }, b, 1)

/-- One `select` of the loop of `ReadRuneWithTimeout`. -/
def ReadRuneWithTimeout.select (rd : Reader) : Event → Except Fault (Step Reader RuneRet)
  | .deadline => .ok (.ret rd ⟨0, 0, some .ErrTimeout⟩)
  | .done s =>
    match recv rd s with
    | .error f => .error f
    | .ok rd0 =>
      let rd1 := { rd0 with r := rd0.r + s.data.length }
      match slice rd1.buf rd1.l rd1.r with
      | .error f => .error f
      | .ok src =>
        if utf8.FullRune src ∨ s.err ≠ none then
          if isEmpty rd1 then .ok (.ret rd1 ⟨0, 0, s.err⟩)
          else
            match takeRune { rd1 with ch := false } with
            | .error f => .error f
            | .ok (rd2, r, size) => .ok (.ret rd2 ⟨r, size, s.err⟩)
        else
          match shiftBufLeft rd1 with
          | .error f => .error f
          | .ok rd2 =>
            match goReadToChannel rd2 with
            | .error f => .error f
            | .ok rd3 => .ok (.again rd3)

/-- The `for { select { ... } }` loop of `ReadRuneWithTimeout`. -/
def ReadRuneWithTimeout.loop (rd : Reader) : List Event → Except Fault (Reader × RuneRet)
  | [] => .error (.blocked rd)
  | e :: es =>
    match ReadRuneWithTimeout.select rd e with
    | .error f => .error f
    | .ok (.ret rd1 x) => .ok (rd1, x)
    | .ok (.again rd1) => ReadRuneWithTimeout.loop rd1 es

/-- The condition `!rd.isEmpty() && utf8.FullRune(rd.buf[rd.l:rd.r])`. -/
def hasFullRune (rd : Reader) : Except Fault Bool :=
  if !isEmpty rd then
    match slice rd.buf rd.l rd.r with
    | .error f => .error f
    | .ok src => .ok (utf8.FullRune src)
  else .ok false

/-- `rd.ReadRuneWithTimeout(d)`. -/
def ReadRuneWithTimeout (rd : Reader) (evs : List Event) : Except Fault (Reader × RuneRet) :=
  match hasFullRune rd with
  | .error f => .error f
  | .ok true =>
    match takeRune rd with
    | .error f => .error f
    | .ok (rd1, r, size) => .ok (rd1, ⟨r, size, none⟩)
  | .ok false =>
    match readIfNotReading rd with
    | .error f => .error f
    | .ok rd1 => ReadRuneWithTimeout.loop rd1 evs

/-- One call on a reader, with what the source and the timer do during it. -/
inductive Call where
  | readWithTimeout (p : Nat) (evs : List Event) : Call
  | read (p : Nat) (rs : List ReadResult) : Call
  | readByteWithTimeout (evs : List Event) : Call
  | readRuneWithTimeout (evs : List Event) : Call

/-- The reader after a call. -/
def Call.run (rd : Reader) : Call → Except Fault Reader
  | .readWithTimeout p evs => (ReadWithTimeout rd p evs).map Prod.fst
  | .read p rs => (Read rd p rs).map Prod.fst
  | .readByteWithTimeout evs => (ReadByteWithTimeout rd evs).map Prod.fst
  | .readRuneWithTimeout evs => (ReadRuneWithTimeout rd evs).map Prod.fst

/-- A sequence of calls by one caller, one after the other. -/
def runCalls (rd : Reader) : List Call → Except Fault Reader
  | [] => .ok rd
  | c :: cs =>
    match Call.run rd c with
    | .error f => .error f
    | .ok rd1 => runCalls rd1 cs

/-- The state a run ends in: the reader returned, or the reader of the call
that is still waiting. -/
def endState : Except Fault Reader → Option Reader
  | .ok rd => some rd
  | .error (.blocked rd) => some rd
  | .error _ => none

/-- At most one read against the underlying source is in flight, and no read
was started while another one was in flight. -/
def AtMostOne (rd : Reader) : Prop :=
  rd.inflight ≤ 1 ∧ rd.overlap = false

/-- The condition that holds between calls: `AtMostOne`, and a nil handle means
that no read is in flight. -/
def Safe (rd : Reader) : Prop :=
  AtMostOne rd ∧ (rd.ch = false → rd.inflight = 0)

end Timeout



namespace Timeout

/-! ### Buffer primitives -/

theorem slice_ok {buf : List Nat} {lo hi : Nat} (h1 : lo ≤ hi) (h2 : hi ≤ buf.length) :
    slice buf lo hi = .ok ((buf.drop lo).take (hi - lo)) := by
  simp [slice, h1, h2]

theorem length_region {buf : List Nat} {lo hi : Nat} (_h1 : lo ≤ hi) (h2 : hi ≤ buf.length) :
    ((buf.drop lo).take (hi - lo)).length = hi - lo := by
  simp [List.length_take, List.length_drop]; omega

/-- What `shiftBufLeft` computes on a reader with `l ≤ r ≤ len(buf)`. -/
theorem shiftBufLeft_ok (rd : Reader) (hl : rd.l ≤ rd.r) (hr : rd.r ≤ rd.buf.length) :
    shiftBufLeft rd = .ok { rd with
      buf := (rd.buf.drop rd.l).take (rd.r - rd.l) ++ rd.buf.drop (rd.r - rd.l),
      l := 0, r := rd.r - rd.l } := by
  have hlen := length_region hl hr
  by_cases h0 : rd.l > 0
  · have hmin : min rd.buf.length (rd.r - rd.l) = rd.r - rd.l := by omega
    have htake : List.take (rd.r - rd.l) (List.take (rd.r - rd.l) (List.drop rd.l rd.buf))
        = List.take (rd.r - rd.l) (List.drop rd.l rd.buf) := by
      rw [List.take_take]; simp
    simp [shiftBufLeft, h0, slice_ok hl hr, copy, hlen, hmin, htake]
  · have hz : rd.l = 0 := by omega
    cases rd
    simp only at hz
    subst hz
    simp [shiftBufLeft]

/-- C10: for a reader with `l ≤ r ≤ len(buf)`, `shiftBufLeft` returns, the
unconsumed bytes are unchanged (the new `buf[0 : r-l]` is the old `buf[l : r]`,
and the region `buf[l:r]` read through the new cursors is the old one), the read
cursor is 0, the write cursor is the old `r - l`, so read cursor plus
unconsumed length is the write cursor, which is at most the capacity, and the
capacity is unchanged. -/
theorem shiftBufLeft_compacts (rd : Reader) (hl : rd.l ≤ rd.r) (hr : rd.r ≤ rd.buf.length) :
    ∃ rd1, shiftBufLeft rd = .ok rd1 ∧
      rd1.buf.take (rd.r - rd.l) = (rd.buf.drop rd.l).take (rd.r - rd.l) ∧
      slice rd1.buf rd1.l rd1.r = slice rd.buf rd.l rd.r ∧
      rd1.l = 0 ∧ rd1.r = rd.r - rd.l ∧ rd1.l + (rd.r - rd.l) = rd1.r ∧
      rd1.r ≤ rd1.buf.length ∧ rd1.buf.length = rd.buf.length := by
  have hlen := length_region hl hr
  have hlen2 : (List.take (rd.r - rd.l) (List.drop rd.l rd.buf)
      ++ List.drop (rd.r - rd.l) rd.buf).length = rd.buf.length := by
    rw [List.length_append, hlen, List.length_drop]; omega
  have htk : List.take (rd.r - rd.l) (List.take (rd.r - rd.l) (List.drop rd.l rd.buf)
      ++ List.drop (rd.r - rd.l) rd.buf) = List.take (rd.r - rd.l) (List.drop rd.l rd.buf) := by
    rw [List.take_append_of_le_length (by rw [hlen]), List.take_take]; simp
  refine ⟨_, shiftBufLeft_ok rd hl hr, htk, ?_, rfl, rfl, ?_, ?_, hlen2⟩
  · show slice _ 0 (rd.r - rd.l) = _
    rw [slice_ok (Nat.zero_le _) (by rw [hlen2]; omega), slice_ok hl hr]
    simp only [List.drop_zero, Nat.sub_zero]
    rw [htk]
  · show 0 + (rd.r - rd.l) = rd.r - rd.l
    omega
  · show rd.r - rd.l ≤ _
    rw [hlen2]; omega

/-- C10 at a concrete reader: capacity 4, cursors 1 and 3. -/
theorem shiftBufLeft_compacts_witness :
    ∃ rd1, shiftBufLeft ⟨[10, 20, 30, 40], 1, 3, false, 0, false⟩ = .ok rd1 ∧
      rd1.buf.take (3 - 1) = (([10, 20, 30, 40] : List Nat).drop 1).take (3 - 1) ∧
      slice rd1.buf rd1.l rd1.r = slice [10, 20, 30, 40] 1 3 ∧
      rd1.l = 0 ∧ rd1.r = 3 - 1 ∧ rd1.l + (3 - 1) = rd1.r ∧
      rd1.r ≤ rd1.buf.length ∧ rd1.buf.length = ([10, 20, 30, 40] : List Nat).length :=
  shiftBufLeft_compacts ⟨[10, 20, 30, 40], 1, 3, false, 0, false⟩ (by decide) (by decide)

/-! ### Effect of the primitives on the handle and on the in-flight count -/

theorem shiftBufLeft_ghost {rd rd1 : Reader} (h : shiftBufLeft rd = .ok rd1) :
    rd1.ch = rd.ch ∧ rd1.inflight = rd.inflight ∧ rd1.overlap = rd.overlap := by
  unfold shiftBufLeft at h
  split at h
  · cases hs : slice rd.buf rd.l rd.r with
    | error f => simp [hs] at h
    | ok src => simp only [hs, Except.ok.injEq] at h; subst h; simp
  · injection h with h; subst h; simp

theorem goReadToChannel_ghost {rd rd1 : Reader} (h : goReadToChannel rd = .ok rd1) :
    rd1 = startSourceRead rd := by
  unfold goReadToChannel at h
  split at h
  · injection h with h; exact h.symm
  · simp at h

theorem copyBufTo_ghost {rd rd1 : Reader} {p count : Nat} {bytes : List Nat}
    (h : copyBufTo rd p = .ok (rd1, bytes, count)) :
    rd1 = { rd with l := rd.l + count } ∧ count = bytes.length ∧ count ≤ p := by
  unfold copyBufTo at h
  cases hs : slice rd.buf rd.l rd.r with
  | error f => simp [hs] at h
  | ok src =>
    simp only [hs, Except.ok.injEq, Prod.mk.injEq] at h
    obtain ⟨h1, h2, h3⟩ := h
    subst h1; subst h2; subst h3
    refine ⟨rfl, ?_, Nat.min_le_left _ _⟩
    simp [List.length_take]

theorem recv_ghost {rd rd0 : Reader} {s : ReadResult} (h : recv rd s = .ok rd0) :
    rd.ch = true ∧ 0 < rd.inflight ∧ rd0.ch = true ∧ rd0.inflight = rd.inflight - 1 ∧
      rd0.overlap = rd.overlap ∧ rd0.l = rd.l ∧ rd0.r = rd.r := by
  unfold recv at h
  split at h
  · simp at h
  · split at h
    · simp at h
    · rename_i h1 _
      injection h with h; subst h
      simp only [not_or] at h1
      refine ⟨by simpa using h1.1, by omega, by simpa using h1.1, rfl, rfl, rfl, rfl⟩

theorem readIfNotReading_ghost {rd rd1 : Reader} (h : readIfNotReading rd = .ok rd1) :
    rd1.ch = true ∧
      (rd.ch = true → rd1 = rd) ∧
      (rd.ch = false → rd1.inflight = rd.inflight + 1 ∧
        rd1.overlap = (rd.overlap || decide (0 < rd.inflight))) := by
  unfold readIfNotReading at h
  split at h
  · rename_i hch
    cases hs : shiftBufLeft { rd with ch := true } with
    | error f => simp [hs] at h
    | ok rd2 =>
      simp only [hs] at h
      have h2 := goReadToChannel_ghost h
      have h3 := shiftBufLeft_ghost hs
      subst h2
      simp only [startSourceRead, h3.1, h3.2.1, h3.2.2, true_and]
      constructor
      · intro hc; rw [hch] at hc; cases hc
      · intro _; trivial
  · rename_i hch
    injection h with h; subst h
    simp only [Bool.not_eq_false] at hch
    refine ⟨hch, fun _ => rfl, ?_⟩
    intro hc; rw [hch] at hc; cases hc

/-! ### The primitives never wait -/

theorem slice_error {buf : List Nat} {lo hi : Nat} {f : Fault}
    (h : slice buf lo hi = .error f) : f = .panic := by
  unfold slice at h
  split at h
  · simp at h
  · injection h with h; exact h.symm

theorem index_error {buf : List Nat} {i : Nat} {f : Fault}
    (h : index buf i = .error f) : f = .panic := by
  unfold index at h
  split at h
  · simp at h
  · injection h with h; exact h.symm

theorem shiftBufLeft_error {rd : Reader} {f : Fault}
    (h : shiftBufLeft rd = .error f) : f = .panic := by
  unfold shiftBufLeft at h
  split at h
  · cases hs : slice rd.buf rd.l rd.r with
    | error g =>
      simp only [hs, Except.error.injEq] at h
      subst h; exact slice_error hs
    | ok src => simp [hs] at h
  · simp at h

theorem goReadToChannel_error {rd : Reader} {f : Fault}
    (h : goReadToChannel rd = .error f) : f = .panic := by
  unfold goReadToChannel at h
  split at h
  · simp at h
  · injection h with h; exact h.symm

theorem copyBufTo_error {rd : Reader} {p : Nat} {f : Fault}
    (h : copyBufTo rd p = .error f) : f = .panic := by
  unfold copyBufTo at h
  cases hs : slice rd.buf rd.l rd.r with
  | error g =>
    simp only [hs, Except.error.injEq] at h
    subst h; exact slice_error hs
  | ok src => simp [hs] at h

theorem recv_error {rd : Reader} {s : ReadResult} {f : Fault}
    (h : recv rd s = .error f) : f = .impossible := by
  unfold recv at h
  split at h
  · injection h with h; exact h.symm
  · split at h
    · injection h with h; exact h.symm
    · simp at h

theorem readIfNotReading_error {rd : Reader} {f : Fault}
    (h : readIfNotReading rd = .error f) : f = .panic := by
  unfold readIfNotReading at h
  split at h
  · cases hs : shiftBufLeft { rd with ch := true } with
    | error g =>
      simp only [hs, Except.error.injEq] at h
      subst h; exact shiftBufLeft_error hs
    | ok rd2 =>
      simp only [hs] at h
      exact goReadToChannel_error h
  · simp at h

/-! ### Construction -/

theorem NewReaderSize_ok (maxLen : Nat) (size : Int) (h : max size 16 ≤ (maxLen : Int)) :
    NewReaderSize maxLen size =
      .ok ⟨List.replicate (max size 16).toNat 0, 0, 0, true, 1, false⟩ := by
  simp only [NewReaderSize, makeBytes, minReadBufferSize, startSourceRead]
  by_cases hs : size < 16
  · have hm : max size 16 = 16 := by omega
    rw [hm] at h ⊢
    rw [if_pos hs, if_neg (by omega)]
    rfl
  · have hm : max size 16 = size := by omega
    rw [hm] at h ⊢
    rw [if_neg hs, if_neg (by omega)]
    rfl

theorem NewReaderSize_panics (maxLen : Nat) (size : Int) (h : (maxLen : Int) < max size 16) :
    NewReaderSize maxLen size = .error .panic := by
  simp only [NewReaderSize, makeBytes, minReadBufferSize]
  by_cases hs : size < 16
  · have hm : max size 16 = 16 := by omega
    rw [hm] at h
    rw [if_pos hs, if_pos (by omega)]
  · have hm : max size 16 = size := by omega
    rw [hm] at h
    rw [if_neg hs, if_pos (by omega)]

/-! ### Runs in which a result with an error arrives while nothing is buffered -/

/-- C1 at a failing input: the source delivers `"ab"` and then zero bytes with
an error.  `ReadWithTimeout` with `len(p) = 2` hands back `"ab"`; the next
`ReadByteWithTimeout` receives the error and returns it together with the stale
byte `'a'`, leaving `l = 1 > r = 0`; the following `ReadByteWithTimeout` then
returns `'b'` with a nil error and a further one returns `0` with a nil error,
although the source delivered nothing after `"ab"`: the caller is handed
`"ab"`, `'b'`, `0`.  The reader is the one `NewReaderSize` returns for size 16
(where `make` can allocate 4096 bytes). -/
theorem ReadByteWithTimeout_duplicates_bytes :
    NewReaderSize 4096 16 = .ok ⟨List.replicate 16 0, 0, 0, true, 1, false⟩ ∧
    ReadWithTimeout ⟨List.replicate 16 0, 0, 0, true, 1, false⟩ 2 [.done ⟨[97, 98], none⟩] =
      .ok (⟨97 :: 98 :: List.replicate 14 0, 2, 2, false, 0, false⟩, ⟨2, [97, 98], none⟩) ∧
    ReadByteWithTimeout ⟨97 :: 98 :: List.replicate 14 0, 2, 2, false, 0, false⟩
        [.done ⟨[], some (.source 1)⟩] =
      .ok (⟨97 :: 98 :: List.replicate 14 0, 1, 0, false, 0, false⟩, ⟨97, some (.source 1)⟩) ∧
    ReadByteWithTimeout ⟨97 :: 98 :: List.replicate 14 0, 1, 0, false, 0, false⟩ [] =
      .ok (⟨97 :: 98 :: List.replicate 14 0, 2, 0, false, 0, false⟩, ⟨98, none⟩) ∧
    ReadByteWithTimeout ⟨97 :: 98 :: List.replicate 14 0, 2, 0, false, 0, false⟩ [] =
      .ok (⟨97 :: 98 :: List.replicate 14 0, 3, 0, false, 0, false⟩, ⟨0, none⟩) :=
  ⟨rfl, rfl, rfl, rfl, rfl⟩

/-- C2 at a failing input: after the byte `'a'` was read and consumed (the
unconsumed region is empty again), the background read completes with zero
bytes and an error before the deadline; `ReadByteWithTimeout` returns the byte
`97` (the consumed `'a'`, still in the buffer) with that error, not `0`. -/
theorem ReadByteWithTimeout_error_returns_stale_byte :
    NewReaderSize 4096 16 = .ok ⟨List.replicate 16 0, 0, 0, true, 1, false⟩ ∧
    ReadByteWithTimeout ⟨List.replicate 16 0, 0, 0, true, 1, false⟩ [.done ⟨[97], none⟩] =
      .ok (⟨97 :: List.replicate 15 0, 1, 1, false, 0, false⟩, ⟨97, none⟩) ∧
    isEmpty ⟨97 :: List.replicate 15 0, 1, 1, false, 0, false⟩ = true ∧
    ReadByteWithTimeout ⟨97 :: List.replicate 15 0, 1, 1, false, 0, false⟩
        [.done ⟨[], some (.source 1)⟩] =
      .ok (⟨97 :: List.replicate 15 0, 1, 0, false, 0, false⟩, ⟨97, some (.source 1)⟩) :=
  ⟨rfl, rfl, rfl, rfl⟩

/-- C4 at failing inputs: on the reader returned by `NewReaderSize`, whose
background read completes with zero bytes and an error, `Read` and
`ReadRuneWithTimeout` each take that result and return the error with the
handle still set although no read is in flight; a later `Read` on such a reader
waits on the channel with nothing to arrive. -/
theorem Read_and_ReadRune_keep_handle_on_error :
    NewReaderSize 4096 16 = .ok ⟨List.replicate 16 0, 0, 0, true, 1, false⟩ ∧
    Read ⟨List.replicate 16 0, 0, 0, true, 1, false⟩ 4 [⟨[], some (.source 1)⟩] =
      .ok (⟨List.replicate 16 0, 0, 0, true, 0, false⟩, ⟨0, [], some (.source 1)⟩) ∧
    ReadRuneWithTimeout ⟨List.replicate 16 0, 0, 0, true, 1, false⟩ [.done ⟨[], some (.source 1)⟩] =
      .ok (⟨List.replicate 16 0, 0, 0, true, 0, false⟩, ⟨0, 0, some (.source 1)⟩) ∧
    Read ⟨List.replicate 16 0, 0, 0, true, 0, false⟩ 4 [] =
      .error (.blocked ⟨List.replicate 16 0, 0, 0, true, 0, false⟩) :=
  ⟨rfl, rfl, rfl, rfl⟩

/-- C5 at a failing input: the reader returned by `NewReaderSize` satisfies
`l ≤ r ≤ len(buf)`; its background read completes with zero bytes and an error;
`ReadByteWithTimeout` returns with `l = 1` and `r = 0`.  On that reader
`ReadWithTimeout` and `Read` panic in `rd.buf[rd.l:rd.r]`. -/
theorem ReadByteWithTimeout_breaks_cursor_order :
    NewReaderSize 4096 16 = .ok ⟨List.replicate 16 0, 0, 0, true, 1, false⟩ ∧
    (⟨List.replicate 16 0, 0, 0, true, 1, false⟩ : Reader).l ≤ (⟨List.replicate 16 0, 0, 0, true, 1, false⟩ : Reader).r ∧
    (⟨List.replicate 16 0, 0, 0, true, 1, false⟩ : Reader).r ≤ (⟨List.replicate 16 0, 0, 0, true, 1, false⟩ : Reader).buf.length ∧
    ReadByteWithTimeout ⟨List.replicate 16 0, 0, 0, true, 1, false⟩ [.done ⟨[], some (.source 1)⟩] =
      .ok (⟨List.replicate 16 0, 1, 0, false, 0, false⟩, ⟨0, some (.source 1)⟩) ∧
    ¬ ((⟨List.replicate 16 0, 1, 0, false, 0, false⟩ : Reader).l ≤
      (⟨List.replicate 16 0, 1, 0, false, 0, false⟩ : Reader).r) ∧
    ReadWithTimeout ⟨List.replicate 16 0, 1, 0, false, 0, false⟩ 4 [] = .error .panic ∧
    Read ⟨List.replicate 16 0, 1, 0, false, 0, false⟩ 4 [] = .error .panic :=
  ⟨rfl, by decide, by decide, rfl, by decide, rfl, rfl⟩

/-! ### The deadline in `ReadWithTimeout` -/

theorem ReadWithTimeout_select_again {st st1 : SliceLoop} {e : Event}
    (h : ReadWithTimeout.select st e = .ok (.again st1)) :
    st1.rd.ch = true ∧ (st.n = st.out.length → st1.n = st1.out.length) ∧ st.n ≤ st1.n := by
  cases e with
  | deadline => simp [ReadWithTimeout.select] at h
  | done s =>
    simp only [ReadWithTimeout.select] at h
    cases hr : recv st.rd s with
    | error f => simp [hr] at h
    | ok rd0 =>
      simp only [hr] at h
      cases hc : copyBufTo { rd0 with r := rd0.r + s.data.length } st.p with
      | error f => simp [hc] at h
      | ok res =>
        obtain ⟨rd2, bytes, count⟩ := res
        simp only [hc] at h
        have hcg := copyBufTo_ghost hc
        have hrg := recv_ghost hr
        split at h
        · simp at h
        · split at h
          · cases hs : shiftBufLeft rd2 with
            | error f => simp [hs] at h
            | ok rd3 =>
              simp only [hs] at h
              cases hg : goReadToChannel rd3 with
              | error f => simp [hg] at h
              | ok rd4 =>
                simp only [hg, Except.ok.injEq, Step.again.injEq] at h
                subst h
                have h4 := goReadToChannel_ghost hg
                have h3 := shiftBufLeft_ghost hs
                refine ⟨?_, ?_, Nat.le_add_right _ _⟩
                · show rd4.ch = true
                  rw [h4]; simp only [startSourceRead]; rw [h3.1, hcg.1]; exact hrg.2.2.1
                · intro hn
                  show st.n + count = (st.out ++ bytes).length
                  rw [List.length_append, hn, hcg.2.1]
          · simp at h

theorem ReadWithTimeout_select_error {st : SliceLoop} {e : Event} {f : Fault}
    (h : ReadWithTimeout.select st e = .error f) : f = .panic ∨ f = .impossible := by
  cases e with
  | deadline => simp [ReadWithTimeout.select] at h
  | done s =>
    simp only [ReadWithTimeout.select] at h
    cases hr : recv st.rd s with
    | error g =>
      simp only [hr, Except.error.injEq] at h
      subst h; exact Or.inr (recv_error hr)
    | ok rd0 =>
      simp only [hr] at h
      cases hc : copyBufTo { rd0 with r := rd0.r + s.data.length } st.p with
      | error g =>
        simp only [hc, Except.error.injEq] at h
        subst h; exact Or.inl (copyBufTo_error hc)
      | ok res =>
        obtain ⟨rd2, bytes, count⟩ := res
        simp only [hc] at h
        split at h
        · simp at h
        · split at h
          · cases hs : shiftBufLeft rd2 with
            | error g =>
              simp only [hs, Except.error.injEq] at h
              subst h; exact Or.inl (shiftBufLeft_error hs)
            | ok rd3 =>
              simp only [hs] at h
              cases hg : goReadToChannel rd3 with
              | error g =>
                simp only [hg, Except.error.injEq] at h
                subst h; exact Or.inl (goReadToChannel_error hg)
              | ok rd4 => simp [hg] at h
          · simp at h

theorem ReadWithTimeout_loop_deadline (evs rest : List Event) :
    ∀ (st : SliceLoop) (rd1 : Reader), st.rd.ch = true → st.n = st.out.length →
      ReadWithTimeout.loop st evs = .error (.blocked rd1) →
      ∃ x : SliceRet, ReadWithTimeout.loop st (evs ++ .deadline :: rest) = .ok (rd1, x) ∧
        st.n ≤ x.n ∧ x.n = x.data.length ∧
        x.err = (if x.n = 0 then some .ErrTimeout else none) ∧ rd1.ch = true := by
  induction evs with
  | nil =>
    intro st rd1 hch hn h
    simp only [ReadWithTimeout.loop, Except.error.injEq, Fault.blocked.injEq] at h
    subst h
    exact ⟨_, rfl, Nat.le_refl _, hn, rfl, hch⟩
  | cons e es ih =>
    intro st rd1 hch hn h
    simp only [ReadWithTimeout.loop, List.cons_append] at h ⊢
    cases hs : ReadWithTimeout.select st e with
    | error f =>
      simp only [hs, Except.error.injEq] at h
      subst h
      rcases ReadWithTimeout_select_error hs with h1 | h1 <;> cases h1
    | ok stp =>
      cases stp with
      | ret rd2 x => simp [hs] at h
      | again st1 =>
        simp only [hs] at h ⊢
        have hsa := ReadWithTimeout_select_again hs
        obtain ⟨x, hx, hle, hrest⟩ := ih st1 rd1 hsa.1 (hsa.2.1 hn) h
        exact ⟨x, hx, Nat.le_trans hsa.2.2 hle, hrest⟩

theorem ReadWithTimeout_wait_deadline (st : SliceLoop) (rd1 : Reader) (evs rest : List Event)
    (hn : st.n = st.out.length)
    (h : ReadWithTimeout.wait st evs = .error (.blocked rd1)) :
    ∃ x : SliceRet, ReadWithTimeout.wait st (evs ++ .deadline :: rest) = .ok (rd1, x) ∧
      st.n ≤ x.n ∧ x.n = x.data.length ∧
      x.err = (if x.n = 0 then some .ErrTimeout else none) ∧ rd1.ch = true ∧
      (evs = [] → st.rd.ch = true → rd1 = st.rd) := by
  unfold ReadWithTimeout.wait at h ⊢
  cases hr : readIfNotReading st.rd with
  | error f =>
    simp only [hr, Except.error.injEq] at h
    subst h
    cases readIfNotReading_error hr
  | ok rd2 =>
    simp only [hr] at h ⊢
    have hg := readIfNotReading_ghost hr
    obtain ⟨x, h1, h2, h3, h4, h5⟩ :=
      ReadWithTimeout_loop_deadline evs rest { st with rd := rd2 } rd1 hg.1 hn h
    refine ⟨x, h1, h2, h3, h4, h5, ?_⟩
    intro he hch
    subst he
    simp only [ReadWithTimeout.loop, Except.error.injEq, Fault.blocked.injEq] at h
    rw [← h]
    exact hg.2.1 hch

/-- C3: whenever `ReadWithTimeout` is waiting in its race (it has consumed the
events `evs` and has not returned; `rd1` is the reader at that moment) and the
deadline fires next, the call returns; it returns `(0, ErrTimeout{})` if and only
if no byte was stored into `p` during the call, and otherwise the number of
bytes stored so far with a nil error.  The reader it leaves is `rd1` itself:
the handle is set and the write cursor (like the rest of the reader) is as it
was when the deadline fired; when the operation was already outstanding on
entry and the deadline is the first event, the write cursor is the one on
entry. -/
theorem ReadWithTimeout_deadline (rd rd1 : Reader) (p : Nat) (evs rest : List Event)
    (h : ReadWithTimeout rd p evs = .error (.blocked rd1)) :
    ∃ x : SliceRet, ReadWithTimeout rd p (evs ++ .deadline :: rest) = .ok (rd1, x) ∧
      ((x.n = 0 ∧ x.err = some .ErrTimeout) ↔ x.data = []) ∧
      (x.data ≠ [] → x.n = x.data.length ∧ x.err = none) ∧
      rd1.ch = true ∧
      (evs = [] → rd.ch = true → rd1.r = rd.r) := by
  have key : ∀ x : SliceRet, x.n = x.data.length →
      x.err = (if x.n = 0 then some .ErrTimeout else none) →
      ((x.n = 0 ∧ x.err = some .ErrTimeout) ↔ x.data = []) ∧
      (x.data ≠ [] → x.n = x.data.length ∧ x.err = none) := by
    intro x h1 h2
    constructor
    · constructor
      · intro hx
        exact List.length_eq_zero.mp (h1 ▸ hx.1)
      · intro hx
        have h0 : x.n = 0 := by rw [h1, hx]; rfl
        exact ⟨h0, by rw [h2, if_pos h0]⟩
    · intro hx
      have h0 : x.n ≠ 0 := by
        intro h0
        exact hx (List.length_eq_zero.mp (h1 ▸ h0))
      exact ⟨h1, by rw [h2, if_neg h0]⟩
  unfold ReadWithTimeout at h ⊢
  split at h
  · rename_i hne
    simp only [hne, if_true]
    cases hc : copyBufTo rd p with
    | error f =>
      simp only [hc, Except.error.injEq] at h
      subst h
      cases copyBufTo_error hc
    | ok res =>
      obtain ⟨rd2, bytes, count⟩ := res
      simp only [hc] at h ⊢
      have hcg := copyBufTo_ghost hc
      split at h
      · simp at h
      · rename_i hp
        simp only [hp, if_false]
        obtain ⟨x, h1, _, h3, h4, h5, h6⟩ :=
          ReadWithTimeout_wait_deadline ⟨rd2, count, bytes, p - count⟩ rd1 evs rest hcg.2.1 h
        refine ⟨x, h1, (key x h3 h4).1, (key x h3 h4).2, h5, ?_⟩
        intro he hch
        have h7 := h6 he (by show rd2.ch = true; rw [hcg.1]; exact hch)
        rw [h7]
        show rd2.r = rd.r
        rw [hcg.1]
  · rename_i hne
    simp only [hne]
    obtain ⟨x, h1, _, h3, h4, h5, h6⟩ :=
      ReadWithTimeout_wait_deadline ⟨rd, 0, [], p⟩ rd1 evs rest rfl h
    refine ⟨x, h1, (key x h3 h4).1, (key x h3 h4).2, h5, ?_⟩
    intro he hch
    rw [h6 he hch]

/-- C3 at a concrete run: the reader returned by `NewReaderSize`, `len(p) = 10`,
no event before the deadline. -/
theorem ReadWithTimeout_deadline_witness :
    ∃ x : SliceRet, ReadWithTimeout ⟨List.replicate 16 0, 0, 0, true, 1, false⟩ 10 ([] ++ .deadline :: []) =
        .ok (⟨List.replicate 16 0, 0, 0, true, 1, false⟩, x) ∧
      ((x.n = 0 ∧ x.err = some .ErrTimeout) ↔ x.data = []) ∧
      (x.data ≠ [] → x.n = x.data.length ∧ x.err = none) ∧
      (⟨List.replicate 16 0, 0, 0, true, 1, false⟩ : Reader).ch = true ∧
      (([] : List Event) = [] → (⟨List.replicate 16 0, 0, 0, true, 1, false⟩ : Reader).ch = true →
        (⟨List.replicate 16 0, 0, 0, true, 1, false⟩ : Reader).r = (⟨List.replicate 16 0, 0, 0, true, 1, false⟩ : Reader).r) :=
  ReadWithTimeout_deadline ⟨List.replicate 16 0, 0, 0, true, 1, false⟩ ⟨List.replicate 16 0, 0, 0, true, 1, false⟩ 10 [] [] rfl

/-! ### Indexing -/

theorem index_ok {buf : List Nat} {i : Nat} (h : i < buf.length) :
    index buf i = .ok (buf.getD i 0) := by
  unfold index
  rw [List.get?_eq_get h, List.getD_eq_getElem _ _ h]
  rfl

/-! ### At most one read against the source -/

theorem takeRune_ghost {rd rd1 : Reader} {r size : Nat}
    (h : takeRune rd = .ok (rd1, r, size)) : rd1 = { rd with l := rd.l + size } := by
  unfold takeRune at h
  cases hi : index rd.buf rd.l with
  | error f => simp [hi] at h
  | ok b =>
    simp only [hi] at h
    split at h
    · cases hs : slice rd.buf rd.l rd.r with
      | error f => simp [hs] at h
      | ok src =>
        simp only [hs, Except.ok.injEq, Prod.mk.injEq] at h
        obtain ⟨h1, _, h3⟩ := h
        rw [← h1, ← h3]
    · simp only [Except.ok.injEq, Prod.mk.injEq] at h
      obtain ⟨h1, _, h3⟩ := h
      rw [← h1, ← h3]

theorem takeRune_error {rd : Reader} {f : Fault} (h : takeRune rd = .error f) : f = .panic := by
  unfold takeRune at h
  cases hi : index rd.buf rd.l with
  | error g =>
    simp only [hi, Except.error.injEq] at h
    subst h; exact index_error hi
  | ok b =>
    simp only [hi] at h
    split at h
    · cases hs : slice rd.buf rd.l rd.r with
      | error g =>
        simp only [hs, Except.error.injEq] at h
        subst h; exact slice_error hs
      | ok src => simp [hs] at h
    · simp at h

theorem Safe.of_idle {rd : Reader} (h1 : rd.inflight = 0) (h2 : rd.overlap = false) : Safe rd :=
  ⟨⟨by omega, h2⟩, fun _ => h1⟩

theorem recv_safe {rd rd0 : Reader} {s : ReadResult} (hs : Safe rd) (h : recv rd s = .ok rd0) :
    rd0.ch = true ∧ rd0.inflight = 0 ∧ rd0.overlap = false := by
  have hg := recv_ghost h
  obtain ⟨⟨h1, h2⟩, _⟩ := hs
  exact ⟨hg.2.2.1, by omega, by rw [hg.2.2.2.2.1]; exact h2⟩

theorem respawn_safe (rd2 : Reader) {rd3 rd4 : Reader} (hch : rd2.ch = true) (h1 : rd2.inflight = 0)
    (h2 : rd2.overlap = false) (hs : shiftBufLeft rd2 = .ok rd3)
    (hg : goReadToChannel rd3 = .ok rd4) : rd4.ch = true ∧ Safe rd4 := by
  have h3 := shiftBufLeft_ghost hs
  have h4 := goReadToChannel_ghost hg
  subst h4
  refine ⟨by simp only [startSourceRead]; rw [h3.1]; exact hch, ⟨?_, ?_⟩, ?_⟩
  · simp only [startSourceRead]; rw [h3.2.1, h1]
  · simp only [startSourceRead]; rw [h3.2.1, h3.2.2, h1, h2]; rfl
  · intro hc
    simp only [startSourceRead] at hc
    rw [h3.1, hch] at hc
    cases hc

theorem readIfNotReading_safe {rd rd1 : Reader} (hs : Safe rd)
    (h : readIfNotReading rd = .ok rd1) : rd1.ch = true ∧ Safe rd1 := by
  have hg := readIfNotReading_ghost h
  refine ⟨hg.1, ?_⟩
  cases hc : rd.ch with
  | true => rw [hg.2.1 hc]; exact hs
  | false =>
    obtain ⟨h1, h2⟩ := hg.2.2 hc
    have h0 := hs.2 hc
    refine ⟨⟨by omega, ?_⟩, ?_⟩
    · rw [h2, hs.1.2, h0]; rfl
    · intro hc1; rw [hg.1] at hc1; cases hc1

theorem ReadWithTimeout_select_safe {st : SliceLoop} {e : Event} (hs : Safe st.rd) :
    (∀ st1, ReadWithTimeout.select st e = .ok (.again st1) → st1.rd.ch = true ∧ Safe st1.rd) ∧
    (∀ rd1 x, ReadWithTimeout.select st e = .ok (.ret rd1 x) → Safe rd1) := by
  cases e with
  | deadline =>
    constructor
    · intro st1 h; simp [ReadWithTimeout.select] at h
    · intro rd1 x h
      simp only [ReadWithTimeout.select, Except.ok.injEq, Step.ret.injEq] at h
      rw [← h.1]; exact hs
  | done s =>
    simp only [ReadWithTimeout.select]
    cases hr : recv st.rd s with
    | error f => simp
    | ok rd0 =>
      simp only []
      have hrs := recv_safe hs hr
      cases hc : copyBufTo { rd0 with r := rd0.r + s.data.length } st.p with
      | error f => simp
      | ok res =>
        obtain ⟨rd2, bytes, count⟩ := res
        simp only []
        have hcg := (copyBufTo_ghost hc).1
        have i1 : rd2.inflight = 0 := by rw [hcg]; exact hrs.2.1
        have i2 : rd2.overlap = false := by rw [hcg]; exact hrs.2.2
        have i3 : rd2.ch = true := by rw [hcg]; exact hrs.1
        split
        · constructor
          · intro st1 h; simp at h
          · intro rd1 x h
            simp only [Except.ok.injEq, Step.ret.injEq] at h
            rw [← h.1]; exact Safe.of_idle i1 i2
        · split
          · cases hsh : shiftBufLeft rd2 with
            | error f => simp
            | ok rd3 =>
              simp only []
              cases hg : goReadToChannel rd3 with
              | error f => simp
              | ok rd4 =>
                simp only []
                constructor
                · intro st1 h
                  simp only [Except.ok.injEq, Step.again.injEq] at h
                  rw [← h]; exact respawn_safe rd2 i3 i1 i2 hsh hg
                · intro rd1 x h; simp at h
          · constructor
            · intro st1 h; simp at h
            · intro rd1 x h
              simp only [Except.ok.injEq, Step.ret.injEq] at h
              rw [← h.1]; exact Safe.of_idle i1 i2

theorem ReadWithTimeout_loop_safe (evs : List Event) :
    ∀ st : SliceLoop, Safe st.rd →
      (∀ rd1 x, ReadWithTimeout.loop st evs = .ok (rd1, x) → Safe rd1) ∧
      (∀ rd1, ReadWithTimeout.loop st evs = .error (.blocked rd1) → AtMostOne rd1) := by
  induction evs with
  | nil =>
    intro st hs
    constructor
    · intro rd1 x h; simp [ReadWithTimeout.loop] at h
    · intro rd1 h
      simp only [ReadWithTimeout.loop, Except.error.injEq, Fault.blocked.injEq] at h
      rw [← h]; exact hs.1
  | cons e es ih =>
    intro st hs
    have hsel := ReadWithTimeout_select_safe (e := e) hs
    simp only [ReadWithTimeout.loop]
    cases hse : ReadWithTimeout.select st e with
    | error f =>
      constructor
      · intro rd1 x h; simp at h
      · intro rd1 h
        simp only [Except.error.injEq] at h
        subst h
        rcases ReadWithTimeout_select_error hse with h1 | h1 <;> cases h1
    | ok stp =>
      cases stp with
      | ret rd2 y =>
        constructor
        · intro rd1 x h
          simp only [Except.ok.injEq, Prod.mk.injEq] at h
          rw [← h.1]; exact hsel.2 rd2 y hse
        · intro rd1 h; simp at h
      | again st1 =>
        exact ih st1 (hsel.1 st1 hse).2

theorem ReadWithTimeout_wait_safe (st : SliceLoop) (evs : List Event) (hs : Safe st.rd) :
    (∀ rd1 x, ReadWithTimeout.wait st evs = .ok (rd1, x) → Safe rd1) ∧
    (∀ rd1, ReadWithTimeout.wait st evs = .error (.blocked rd1) → AtMostOne rd1) := by
  unfold ReadWithTimeout.wait
  cases hr : readIfNotReading st.rd with
  | error f =>
    constructor
    · intro rd1 x h; simp at h
    · intro rd1 h
      simp only [Except.error.injEq] at h
      subst h
      cases readIfNotReading_error hr
  | ok rd2 =>
    exact ReadWithTimeout_loop_safe evs { st with rd := rd2 } (readIfNotReading_safe hs hr).2

theorem ReadWithTimeout_safe (rd : Reader) (p : Nat) (evs : List Event) (hs : Safe rd) :
    (∀ rd1 x, ReadWithTimeout rd p evs = .ok (rd1, x) → Safe rd1) ∧
    (∀ rd1, ReadWithTimeout rd p evs = .error (.blocked rd1) → AtMostOne rd1) := by
  unfold ReadWithTimeout
  split
  · cases hc : copyBufTo rd p with
    | error f =>
      constructor
      · intro rd1 x h; simp at h
      · intro rd1 h
        simp only [Except.error.injEq] at h
        subst h
        cases copyBufTo_error hc
    | ok res =>
      obtain ⟨rd2, bytes, count⟩ := res
      simp only []
      have hcg := (copyBufTo_ghost hc).1
      have hs2 : Safe rd2 := by rw [hcg]; exact hs
      split
      · constructor
        · intro rd1 x h
          simp only [Except.ok.injEq, Prod.mk.injEq] at h
          rw [← h.1]; exact hs2
        · intro rd1 h; simp at h
      · exact ReadWithTimeout_wait_safe ⟨rd2, count, bytes, p - count⟩ evs hs2
  · exact ReadWithTimeout_wait_safe ⟨rd, 0, [], p⟩ evs hs

theorem ReadByteWithTimeout_select_error {rd : Reader} {e : Event} {f : Fault}
    (h : ReadByteWithTimeout.select rd e = .error f) : f = .panic ∨ f = .impossible := by
  cases e with
  | deadline => simp [ReadByteWithTimeout.select] at h
  | done s =>
    simp only [ReadByteWithTimeout.select] at h
    cases hr : recv rd s with
    | error g =>
      simp only [hr, Except.error.injEq] at h
      subst h; exact Or.inr (recv_error hr)
    | ok rd0 =>
      simp only [hr] at h
      split at h
      · cases hi : index rd0.buf rd0.l with
        | error g =>
          simp only [hi, Except.error.injEq] at h
          subst h; exact Or.inl (index_error hi)
        | ok c => simp [hi] at h
      · cases hs : shiftBufLeft { rd0 with r := rd0.r + s.data.length } with
        | error g =>
          simp only [hs, Except.error.injEq] at h
          subst h; exact Or.inl (shiftBufLeft_error hs)
        | ok rd3 =>
          simp only [hs] at h
          cases hg : goReadToChannel rd3 with
          | error g =>
            simp only [hg, Except.error.injEq] at h
            subst h; exact Or.inl (goReadToChannel_error hg)
          | ok rd4 => simp [hg] at h

theorem ReadByteWithTimeout_select_safe {rd : Reader} {e : Event} (hs : Safe rd) :
    (∀ rd1, ReadByteWithTimeout.select rd e = .ok (.again rd1) → rd1.ch = true ∧ Safe rd1) ∧
    (∀ rd1 x, ReadByteWithTimeout.select rd e = .ok (.ret rd1 x) → Safe rd1) := by
  cases e with
  | deadline =>
    constructor
    · intro rd1 h; simp [ReadByteWithTimeout.select] at h
    · intro rd1 x h
      simp only [ReadByteWithTimeout.select, Except.ok.injEq, Step.ret.injEq] at h
      rw [← h.1]; exact hs
  | done s =>
    simp only [ReadByteWithTimeout.select]
    cases hr : recv rd s with
    | error f => simp
    | ok rd0 =>
      simp only []
      have hrs := recv_safe hs hr
      split
      · cases hi : index rd0.buf rd0.l with
        | error f => simp
        | ok c =>
          simp only []
          constructor
          · intro rd1 h; simp at h
          · intro rd1 x h
            simp only [Except.ok.injEq, Step.ret.injEq] at h
            rw [← h.1]; exact Safe.of_idle hrs.2.1 hrs.2.2
      · cases hsh : shiftBufLeft { rd0 with r := rd0.r + s.data.length } with
        | error f => simp
        | ok rd3 =>
          simp only []
          cases hg : goReadToChannel rd3 with
          | error f => simp
          | ok rd4 =>
            simp only []
            constructor
            · intro rd1 h
              simp only [Except.ok.injEq, Step.again.injEq] at h
              rw [← h]
              exact respawn_safe { rd0 with r := rd0.r + s.data.length }
                hrs.1 hrs.2.1 hrs.2.2 hsh hg
            · intro rd1 x h; simp at h

theorem ReadByteWithTimeout_loop_safe (evs : List Event) :
    ∀ rd : Reader, Safe rd →
      (∀ rd1 x, ReadByteWithTimeout.loop rd evs = .ok (rd1, x) → Safe rd1) ∧
      (∀ rd1, ReadByteWithTimeout.loop rd evs = .error (.blocked rd1) → AtMostOne rd1) := by
  induction evs with
  | nil =>
    intro rd hs
    constructor
    · intro rd1 x h; simp [ReadByteWithTimeout.loop] at h
    · intro rd1 h
      simp only [ReadByteWithTimeout.loop, Except.error.injEq, Fault.blocked.injEq] at h
      rw [← h]; exact hs.1
  | cons e es ih =>
    intro rd hs
    have hsel := ReadByteWithTimeout_select_safe (e := e) hs
    simp only [ReadByteWithTimeout.loop]
    cases hse : ReadByteWithTimeout.select rd e with
    | error f =>
      constructor
      · intro rd1 x h; simp at h
      · intro rd1 h
        simp only [Except.error.injEq] at h
        subst h
        rcases ReadByteWithTimeout_select_error hse with h1 | h1 <;> cases h1
    | ok stp =>
      cases stp with
      | ret rd2 y =>
        constructor
        · intro rd1 x h
          simp only [Except.ok.injEq, Prod.mk.injEq] at h
          rw [← h.1]; exact hsel.2 rd2 y hse
        · intro rd1 h; simp at h
      | again rd2 =>
        exact ih rd2 (hsel.1 rd2 hse).2

theorem ReadByteWithTimeout_safe (rd : Reader) (evs : List Event) (hs : Safe rd) :
    (∀ rd1 x, ReadByteWithTimeout rd evs = .ok (rd1, x) → Safe rd1) ∧
    (∀ rd1, ReadByteWithTimeout rd evs = .error (.blocked rd1) → AtMostOne rd1) := by
  unfold ReadByteWithTimeout
  split
  · cases hi : index rd.buf rd.l with
    | error f =>
      constructor
      · intro rd1 x h; simp at h
      · intro rd1 h
        simp only [Except.error.injEq] at h
        subst h
        cases index_error hi
    | ok c =>
      constructor
      · intro rd1 x h
        simp only [Except.ok.injEq, Prod.mk.injEq] at h
        rw [← h.1]; exact hs
      · intro rd1 h; simp at h
  · cases hr : readIfNotReading rd with
    | error f =>
      constructor
      · intro rd1 x h; simp at h
      · intro rd1 h
        simp only [Except.error.injEq] at h
        subst h
        cases readIfNotReading_error hr
    | ok rd2 =>
      exact ReadByteWithTimeout_loop_safe evs rd2 (readIfNotReading_safe hs hr).2

theorem ReadRuneWithTimeout_select_error {rd : Reader} {e : Event} {f : Fault}
    (h : ReadRuneWithTimeout.select rd e = .error f) : f = .panic ∨ f = .impossible := by
  cases e with
  | deadline => simp [ReadRuneWithTimeout.select] at h
  | done s =>
    simp only [ReadRuneWithTimeout.select] at h
    cases hr : recv rd s with
    | error g =>
      simp only [hr, Except.error.injEq] at h
      subst h; exact Or.inr (recv_error hr)
    | ok rd0 =>
      simp only [hr] at h
      cases hsl : slice rd0.buf rd0.l (rd0.r + s.data.length) with
      | error g =>
        simp only [hsl, Except.error.injEq] at h
        subst h; exact Or.inl (slice_error hsl)
      | ok src =>
        simp only [hsl] at h
        split at h
        · split at h
          · simp at h
          · cases ht : takeRune { rd0 with r := rd0.r + s.data.length, ch := false } with
            | error g =>
              simp only [ht, Except.error.injEq] at h
              subst h; exact Or.inl (takeRune_error ht)
            | ok res => simp [ht] at h
        · cases hs : shiftBufLeft { rd0 with r := rd0.r + s.data.length } with
          | error g =>
            simp only [hs, Except.error.injEq] at h
            subst h; exact Or.inl (shiftBufLeft_error hs)
          | ok rd3 =>
            simp only [hs] at h
            cases hg : goReadToChannel rd3 with
            | error g =>
              simp only [hg, Except.error.injEq] at h
              subst h; exact Or.inl (goReadToChannel_error hg)
            | ok rd4 => simp [hg] at h

theorem ReadRuneWithTimeout_select_safe {rd : Reader} {e : Event} (hs : Safe rd) :
    (∀ rd1, ReadRuneWithTimeout.select rd e = .ok (.again rd1) → rd1.ch = true ∧ Safe rd1) ∧
    (∀ rd1 x, ReadRuneWithTimeout.select rd e = .ok (.ret rd1 x) → Safe rd1) := by
  cases e with
  | deadline =>
    constructor
    · intro rd1 h; simp [ReadRuneWithTimeout.select] at h
    · intro rd1 x h
      simp only [ReadRuneWithTimeout.select, Except.ok.injEq, Step.ret.injEq] at h
      rw [← h.1]; exact hs
  | done s =>
    simp only [ReadRuneWithTimeout.select]
    cases hr : recv rd s with
    | error f => simp
    | ok rd0 =>
      simp only []
      have hrs := recv_safe hs hr
      cases hsl : slice rd0.buf rd0.l (rd0.r + s.data.length) with
      | error f => simp
      | ok src =>
        simp only []
        split
        · split
          · constructor
            · intro rd1 h; simp at h
            · intro rd1 x h
              simp only [Except.ok.injEq, Step.ret.injEq] at h
              rw [← h.1]; exact Safe.of_idle hrs.2.1 hrs.2.2
          · cases ht : takeRune { rd0 with r := rd0.r + s.data.length, ch := false } with
            | error f => simp
            | ok res =>
              obtain ⟨rd2, r, size⟩ := res
              simp only []
              have htg := takeRune_ghost ht
              constructor
              · intro rd1 h; simp at h
              · intro rd1 x h
                simp only [Except.ok.injEq, Step.ret.injEq] at h
                rw [← h.1, htg]; exact Safe.of_idle hrs.2.1 hrs.2.2
        · cases hsh : shiftBufLeft { rd0 with r := rd0.r + s.data.length } with
          | error f => simp
          | ok rd3 =>
            simp only []
            cases hg : goReadToChannel rd3 with
            | error f => simp
            | ok rd4 =>
              simp only []
              constructor
              · intro rd1 h
                simp only [Except.ok.injEq, Step.again.injEq] at h
                rw [← h]
                exact respawn_safe { rd0 with r := rd0.r + s.data.length }
                  hrs.1 hrs.2.1 hrs.2.2 hsh hg
              · intro rd1 x h; simp at h

theorem ReadRuneWithTimeout_loop_safe (evs : List Event) :
    ∀ rd : Reader, Safe rd →
      (∀ rd1 x, ReadRuneWithTimeout.loop rd evs = .ok (rd1, x) → Safe rd1) ∧
      (∀ rd1, ReadRuneWithTimeout.loop rd evs = .error (.blocked rd1) → AtMostOne rd1) := by
  induction evs with
  | nil =>
    intro rd hs
    constructor
    · intro rd1 x h; simp [ReadRuneWithTimeout.loop] at h
    · intro rd1 h
      simp only [ReadRuneWithTimeout.loop, Except.error.injEq, Fault.blocked.injEq] at h
      rw [← h]; exact hs.1
  | cons e es ih =>
    intro rd hs
    have hsel := ReadRuneWithTimeout_select_safe (e := e) hs
    simp only [ReadRuneWithTimeout.loop]
    cases hse : ReadRuneWithTimeout.select rd e with
    | error f =>
      constructor
      · intro rd1 x h; simp at h
      · intro rd1 h
        simp only [Except.error.injEq] at h
        subst h
        rcases ReadRuneWithTimeout_select_error hse with h1 | h1 <;> cases h1
    | ok stp =>
      cases stp with
      | ret rd2 y =>
        constructor
        · intro rd1 x h
          simp only [Except.ok.injEq, Prod.mk.injEq] at h
          rw [← h.1]; exact hsel.2 rd2 y hse
        · intro rd1 h; simp at h
      | again rd2 =>
        exact ih rd2 (hsel.1 rd2 hse).2

theorem hasFullRune_error {rd : Reader} {f : Fault} (h : hasFullRune rd = .error f) :
    f = .panic := by
  unfold hasFullRune at h
  split at h
  · cases hs : slice rd.buf rd.l rd.r with
    | error g =>
      simp only [hs, Except.error.injEq] at h
      subst h; exact slice_error hs
    | ok src => simp [hs] at h
  · simp at h

theorem ReadRuneWithTimeout_safe (rd : Reader) (evs : List Event) (hs : Safe rd) :
    (∀ rd1 x, ReadRuneWithTimeout rd evs = .ok (rd1, x) → Safe rd1) ∧
    (∀ rd1, ReadRuneWithTimeout rd evs = .error (.blocked rd1) → AtMostOne rd1) := by
  unfold ReadRuneWithTimeout
  cases hf : hasFullRune rd with
  | error f =>
    constructor
    · intro rd1 x h; simp at h
    · intro rd1 h
      simp only [Except.error.injEq] at h
      subst h
      cases hasFullRune_error hf
  | ok b =>
    cases b with
    | true =>
      simp only []
      cases ht : takeRune rd with
      | error f =>
        constructor
        · intro rd1 x h; simp at h
        · intro rd1 h
          simp only [Except.error.injEq] at h
          subst h
          cases takeRune_error ht
      | ok res =>
        obtain ⟨rd2, r, size⟩ := res
        have htg := takeRune_ghost ht
        constructor
        · intro rd1 x h
          simp only [Except.ok.injEq, Prod.mk.injEq] at h
          rw [← h.1, htg]; exact hs
        · intro rd1 h; simp at h
    | false =>
      simp only []
      cases hr : readIfNotReading rd with
      | error f =>
        constructor
        · intro rd1 x h; simp at h
        · intro rd1 h
          simp only [Except.error.injEq] at h
          subst h
          cases readIfNotReading_error hr
      | ok rd2 =>
        exact ReadRuneWithTimeout_loop_safe evs rd2 (readIfNotReading_safe hs hr).2

theorem syncRead_safe {rd : Reader} (p : Nat) (rs : List ReadResult)
    (h1 : rd.inflight = 0) (h2 : rd.overlap = false) :
    (∀ rd1 t, syncRead rd p rs = .ok (rd1, t) →
      rd1.inflight = 0 ∧ rd1.overlap = false ∧ rd1.ch = rd.ch) ∧
    (∀ rd1, syncRead rd p rs = .error (.blocked rd1) → AtMostOne rd1) := by
  cases rs with
  | nil =>
    constructor
    · intro rd1 t h; simp [syncRead] at h
    · intro rd1 h
      simp only [syncRead, Except.error.injEq, Fault.blocked.injEq] at h
      subst h
      constructor
      · simp only [startSourceRead]; omega
      · simp only [startSourceRead]; rw [h1, h2]; rfl
  | cons t ts =>
    simp only [syncRead]
    split
    · constructor
      · intro rd1 t h; simp at h
      · intro rd1 h; simp at h
    · constructor
      · intro rd1 t1 h
        simp only [Except.ok.injEq, Prod.mk.injEq] at h
        rw [← h.1]
        simp only [finishSourceRead, startSourceRead]
        refine ⟨by omega, ?_, trivial⟩
        rw [h1, h2]; rfl
      · intro rd1 h; simp at h

theorem Read_rest_safe (st : SliceLoop) (rs : List ReadResult) (hs : Safe st.rd) :
    (∀ rd1 x, Read.rest st rs = .ok (rd1, x) → Safe rd1) ∧
    (∀ rd1, Read.rest st rs = .error (.blocked rd1) → AtMostOne rd1) := by
  unfold Read.rest
  split
  · cases rs with
    | nil =>
      constructor
      · intro rd1 x h; simp at h
      · intro rd1 h
        simp only [Except.error.injEq, Fault.blocked.injEq] at h
        rw [← h]; exact hs.1
    | cons s rs1 =>
      simp only []
      cases hr : recv st.rd s with
      | error f =>
        constructor
        · intro rd1 x h; simp at h
        · intro rd1 h
          simp only [Except.error.injEq] at h
          subst h
          cases recv_error hr
      | ok rd0 =>
        simp only []
        have hrs := recv_safe hs hr
        cases hc : copyBufTo { rd0 with r := rd0.r + s.data.length } st.p with
        | error f =>
          constructor
          · intro rd1 x h; simp at h
          · intro rd1 h
            simp only [Except.error.injEq] at h
            subst h
            cases copyBufTo_error hc
        | ok res =>
          obtain ⟨rd2, bytes, count⟩ := res
          simp only []
          have hcg := (copyBufTo_ghost hc).1
          have i1 : rd2.inflight = 0 := by rw [hcg]; exact hrs.2.1
          have i2 : rd2.overlap = false := by rw [hcg]; exact hrs.2.2
          split
          · constructor
            · intro rd1 x h
              simp only [Except.ok.injEq, Prod.mk.injEq] at h
              rw [← h.1]; exact Safe.of_idle i1 i2
            · intro rd1 h; simp at h
          · split
            · have hsy := syncRead_safe (st.p - count) rs1 i1 i2
              cases hsr : syncRead rd2 (st.p - count) rs1 with
              | error f =>
                constructor
                · intro rd1 x h; simp at h
                · intro rd1 h
                  simp only [Except.error.injEq] at h
                  subst h
                  exact hsy.2 rd1 hsr
              | ok res2 =>
                obtain ⟨rd3, t⟩ := res2
                have h3 := hsy.1 rd3 t hsr
                constructor
                · intro rd1 x h
                  simp only [Except.ok.injEq, Prod.mk.injEq] at h
                  rw [← h.1]; exact Safe.of_idle h3.1 h3.2.1
                · intro rd1 h; simp at h
            · constructor
              · intro rd1 x h
                simp only [Except.ok.injEq, Prod.mk.injEq] at h
                rw [← h.1]; exact Safe.of_idle i1 i2
              · intro rd1 h; simp at h
  · rename_i hch
    have hch0 : st.rd.ch = false := by simpa using hch
    have i1 := hs.2 hch0
    have hsy := syncRead_safe st.p rs i1 hs.1.2
    cases hsr : syncRead st.rd st.p rs with
    | error f =>
      constructor
      · intro rd1 x h; simp at h
      · intro rd1 h
        simp only [Except.error.injEq] at h
        subst h
        exact hsy.2 rd1 hsr
    | ok res2 =>
      obtain ⟨rd3, t⟩ := res2
      have h3 := hsy.1 rd3 t hsr
      constructor
      · intro rd1 x h
        simp only [Except.ok.injEq, Prod.mk.injEq] at h
        rw [← h.1]; exact Safe.of_idle h3.1 h3.2.1
      · intro rd1 h; simp at h

theorem Read_safe (rd : Reader) (p : Nat) (rs : List ReadResult) (hs : Safe rd) :
    (∀ rd1 x, Read rd p rs = .ok (rd1, x) → Safe rd1) ∧
    (∀ rd1, Read rd p rs = .error (.blocked rd1) → AtMostOne rd1) := by
  unfold Read
  split
  · cases hc : copyBufTo rd p with
    | error f =>
      constructor
      · intro rd1 x h; simp at h
      · intro rd1 h
        simp only [Except.error.injEq] at h
        subst h
        cases copyBufTo_error hc
    | ok res =>
      obtain ⟨rd2, bytes, count⟩ := res
      simp only []
      have hcg := (copyBufTo_ghost hc).1
      have hs2 : Safe rd2 := by rw [hcg]; exact hs
      exact Read_rest_safe ⟨rd2, count, bytes, p - count⟩ rs hs2
  · exact Read_rest_safe ⟨rd, 0, [], p⟩ rs hs

theorem map_fst_ok {α : Type} {r : Except Fault (Reader × α)} {rd1 : Reader}
    (h : r.map Prod.fst = .ok rd1) : ∃ x, r = .ok (rd1, x) := by
  cases r with
  | error f => simp [Except.map] at h
  | ok v =>
    obtain ⟨a, b⟩ := v
    simp only [Except.map, Except.ok.injEq] at h
    exact ⟨b, by rw [← h]⟩

theorem map_fst_error {α : Type} {r : Except Fault (Reader × α)} {f : Fault}
    (h : r.map Prod.fst = .error f) : r = .error f := by
  cases r with
  | error g => simpa [Except.map] using h
  | ok v => simp [Except.map] at h

theorem Call_run_safe (rd : Reader) (c : Call) (hs : Safe rd) :
    (∀ rd1, Call.run rd c = .ok rd1 → Safe rd1) ∧
    (∀ rd1, Call.run rd c = .error (.blocked rd1) → AtMostOne rd1) := by
  cases c with
  | readWithTimeout p evs =>
    constructor
    · intro rd1 h
      obtain ⟨x, hx⟩ := map_fst_ok h
      exact (ReadWithTimeout_safe rd p evs hs).1 rd1 x hx
    · intro rd1 h
      exact (ReadWithTimeout_safe rd p evs hs).2 rd1 (map_fst_error h)
  | read p rs =>
    constructor
    · intro rd1 h
      obtain ⟨x, hx⟩ := map_fst_ok h
      exact (Read_safe rd p rs hs).1 rd1 x hx
    · intro rd1 h
      exact (Read_safe rd p rs hs).2 rd1 (map_fst_error h)
  | readByteWithTimeout evs =>
    constructor
    · intro rd1 h
      obtain ⟨x, hx⟩ := map_fst_ok h
      exact (ReadByteWithTimeout_safe rd evs hs).1 rd1 x hx
    · intro rd1 h
      exact (ReadByteWithTimeout_safe rd evs hs).2 rd1 (map_fst_error h)
  | readRuneWithTimeout evs =>
    constructor
    · intro rd1 h
      obtain ⟨x, hx⟩ := map_fst_ok h
      exact (ReadRuneWithTimeout_safe rd evs hs).1 rd1 x hx
    · intro rd1 h
      exact (ReadRuneWithTimeout_safe rd evs hs).2 rd1 (map_fst_error h)

theorem runCalls_safe (calls : List Call) :
    ∀ rd : Reader, Safe rd →
      (∀ rd1, runCalls rd calls = .ok rd1 → Safe rd1) ∧
      (∀ rd1, runCalls rd calls = .error (.blocked rd1) → AtMostOne rd1) := by
  induction calls with
  | nil =>
    intro rd hs
    constructor
    · intro rd1 h
      simp only [runCalls, Except.ok.injEq] at h
      rw [← h]; exact hs
    · intro rd1 h; simp [runCalls] at h
  | cons c cs ih =>
    intro rd hs
    have hc := Call_run_safe rd c hs
    simp only [runCalls]
    cases hr : Call.run rd c with
    | error f =>
      constructor
      · intro rd1 h; simp at h
      · intro rd1 h
        simp only [Except.error.injEq] at h
        subst h
        exact hc.2 rd1 hr
    | ok rd2 => exact ih rd2 (hc.1 rd2 hr)

theorem NewReaderSize_safe {maxLen : Nat} {size : Int} {rd0 : Reader}
    (h : NewReaderSize maxLen size = .ok rd0) : Safe rd0 := by
  simp only [NewReaderSize] at h
  split at h
  · simp at h
  · injection h with h
    subst h
    exact ⟨⟨Nat.le_refl 1, rfl⟩, fun h => by cases h⟩

/-- C6: in every state reached from a reader returned by `NewReaderSize` by a sequence of
`ReadWithTimeout`, `Read`, `ReadByteWithTimeout` and `ReadRuneWithTimeout`
calls made one after the other, under every order of deadline and completion
events (the state after the last call has returned, or the state in which a
call is waiting), at most one read against the underlying source is in flight
and no read, background or synchronous, was ever started while another was in
flight; and whenever the calls have all returned with the handle nil, no read
is in flight, so that the background read `readIfNotReading` starts on a nil
handle is the only one. -/
theorem one_source_read_in_flight (maxLen : Nat) (size : Int) (calls : List Call)
    (rd0 rd : Reader) (h0 : NewReaderSize maxLen size = .ok rd0)
    (h : endState (runCalls rd0 calls) = some rd) :
    rd.inflight ≤ 1 ∧ rd.overlap = false ∧
      (runCalls rd0 calls = .ok rd → rd.ch = false → rd.inflight = 0) := by
  have hs := runCalls_safe calls rd0 (NewReaderSize_safe h0)
  cases hr : runCalls rd0 calls with
  | ok rd1 =>
    rw [hr] at h
    simp only [endState, Option.some.injEq] at h
    subst h
    have h1 := hs.1 rd1 hr
    exact ⟨h1.1.1, h1.1.2, fun _ => h1.2⟩
  | error f =>
    rw [hr] at h
    cases f with
    | panic => simp [endState] at h
    | impossible => simp [endState] at h
    | blocked rd1 =>
      simp only [endState, Option.some.injEq] at h
      subst h
      have h1 := hs.2 rd1 hr
      exact ⟨h1.1, h1.2, fun h2 => by simp at h2⟩

/-- C6 at a concrete run: a slice read that times out, a drain by `Read` that
receives `"hello"`, a byte read that times out. -/
theorem one_source_read_in_flight_witness :
    (⟨104 :: 101 :: 108 :: 108 :: 111 :: List.replicate 11 0, 0, 0, true, 1, false⟩ :
        Reader).inflight ≤ 1 ∧
      (⟨104 :: 101 :: 108 :: 108 :: 111 :: List.replicate 11 0, 0, 0, true, 1, false⟩ :
        Reader).overlap = false ∧
      (runCalls ⟨List.replicate 16 0, 0, 0, true, 1, false⟩
          [.readWithTimeout 10 [.deadline], .read 10 [⟨[104, 101, 108, 108, 111], none⟩],
            .readByteWithTimeout [.deadline]] =
          .ok ⟨104 :: 101 :: 108 :: 108 :: 111 :: List.replicate 11 0, 0, 0, true, 1, false⟩ →
        (⟨104 :: 101 :: 108 :: 108 :: 111 :: List.replicate 11 0, 0, 0, true, 1, false⟩ :
          Reader).ch = false →
        (⟨104 :: 101 :: 108 :: 108 :: 111 :: List.replicate 11 0, 0, 0, true, 1, false⟩ :
          Reader).inflight = 0) :=
  one_source_read_in_flight 4096 16
    [.readWithTimeout 10 [.deadline], .read 10 [⟨[104, 101, 108, 108, 111], none⟩],
      .readByteWithTimeout [.deadline]]
    ⟨List.replicate 16 0, 0, 0, true, 1, false⟩
    ⟨104 :: 101 :: 108 :: 108 :: 111 :: List.replicate 11 0, 0, 0, true, 1, false⟩ rfl rfl

/-! ### `unicode/utf8` on encodings of valid code points -/

namespace utf8

theorem or_add (i m z : Nat) (hz : z < 2 ^ i) (hm : m % 2 ^ i = 0) : m ||| z = m + z := by
  have h : m = 2 ^ i * (m / 2 ^ i) := by
    have := Nat.div_add_mod m (2 ^ i)
    omega
  rw [h]
  exact (Nat.mul_add_lt_is_or hz _).symm

theorem decode_two (a b : Nat) (ha : a < 32) (hb : b < 64) :
    ((0xC0 + a) &&& mask2) <<< 6 ||| ((0x80 + b) &&& maskx) = a * 64 + b := by
  have e1 : (0xC0 + a) &&& mask2 = a := by
    have := Nat.and_pow_two_sub_one_eq_mod (0xC0 + a) 5
    simp only [mask2]; norm_num at this ⊢; omega
  have e2 : (0x80 + b) &&& maskx = b := by
    have := Nat.and_pow_two_sub_one_eq_mod (0x80 + b) 6
    simp only [maskx]; norm_num at this ⊢; omega
  rw [e1, e2, Nat.shiftLeft_eq]
  rw [or_add 6 (a * 2 ^ 6) b (by norm_num; omega) (by norm_num)]

theorem decode_three (a b d : Nat) (ha : a < 16) (hb : b < 64) (hd : d < 64) :
    ((0xE0 + a) &&& mask3) <<< 12 ||| ((0x80 + b) &&& maskx) <<< 6 ||| ((0x80 + d) &&& maskx)
      = a * 4096 + b * 64 + d := by
  have e1 : (0xE0 + a) &&& mask3 = a := by
    have := Nat.and_pow_two_sub_one_eq_mod (0xE0 + a) 4
    simp only [mask3]; norm_num at this ⊢; omega
  have e2 : (0x80 + b) &&& maskx = b := by
    have := Nat.and_pow_two_sub_one_eq_mod (0x80 + b) 6
    simp only [maskx]; norm_num at this ⊢; omega
  have e3 : (0x80 + d) &&& maskx = d := by
    have := Nat.and_pow_two_sub_one_eq_mod (0x80 + d) 6
    simp only [maskx]; norm_num at this ⊢; omega
  rw [e1, e2, e3, Nat.shiftLeft_eq, Nat.shiftLeft_eq]
  rw [or_add 12 (a * 2 ^ 12) (b * 2 ^ 6) (by norm_num; omega) (by norm_num)]
  rw [or_add 6 (a * 2 ^ 12 + b * 2 ^ 6) d (by norm_num; omega) (by norm_num; omega)]

theorem decode_four (a b d e : Nat) (ha : a < 8) (hb : b < 64) (hd : d < 64) (he : e < 64) :
    ((0xF0 + a) &&& mask4) <<< 18 ||| ((0x80 + b) &&& maskx) <<< 12
      ||| ((0x80 + d) &&& maskx) <<< 6 ||| ((0x80 + e) &&& maskx)
      = a * 262144 + b * 4096 + d * 64 + e := by
  have e1 : (0xF0 + a) &&& mask4 = a := by
    have := Nat.and_pow_two_sub_one_eq_mod (0xF0 + a) 3
    simp only [mask4]; norm_num at this ⊢; omega
  have e2 : (0x80 + b) &&& maskx = b := by
    have := Nat.and_pow_two_sub_one_eq_mod (0x80 + b) 6
    simp only [maskx]; norm_num at this ⊢; omega
  have e3 : (0x80 + d) &&& maskx = d := by
    have := Nat.and_pow_two_sub_one_eq_mod (0x80 + d) 6
    simp only [maskx]; norm_num at this ⊢; omega
  have e4 : (0x80 + e) &&& maskx = e := by
    have := Nat.and_pow_two_sub_one_eq_mod (0x80 + e) 6
    simp only [maskx]; norm_num at this ⊢; omega
  rw [e1, e2, e3, e4, Nat.shiftLeft_eq, Nat.shiftLeft_eq, Nat.shiftLeft_eq]
  rw [or_add 18 (a * 2 ^ 18) (b * 2 ^ 12) (by norm_num; omega) (by norm_num)]
  rw [or_add 12 (a * 2 ^ 18 + b * 2 ^ 12) (d * 2 ^ 6) (by norm_num; omega) (by norm_num; omega)]
  rw [or_add 6 (a * 2 ^ 18 + b * 2 ^ 12 + d * 2 ^ 6) e (by norm_num; omega)
    (by norm_num; omega)]

theorem encodeRune_two {c : Nat} (h1 : 0x80 ≤ c) (h2 : c < 0x800) :
    encodeRune c = [0xC0 + c / 64, 0x80 + c % 64] := by
  unfold encodeRune
  rw [if_neg (Nat.not_lt.mpr h1), if_pos h2]

theorem encodeRune_three {c : Nat} (h1 : 0x800 ≤ c) (h2 : c < 0x10000) :
    encodeRune c = [0xE0 + c / 4096, 0x80 + c / 64 % 64, 0x80 + c % 64] := by
  unfold encodeRune
  rw [if_neg (by omega), if_neg (Nat.not_lt.mpr h1), if_pos h2]

theorem encodeRune_four {c : Nat} (h1 : 0x10000 ≤ c) :
    encodeRune c =
      [0xF0 + c / 262144, 0x80 + c / 4096 % 64, 0x80 + c / 64 % 64, 0x80 + c % 64] := by
  unfold encodeRune
  rw [if_neg (by omega), if_neg (by omega), if_neg (Nat.not_lt.mpr h1)]

theorem FullRune_one (b0 : Nat) (h : 1 < first b0 &&& 7) : FullRune [b0] = false := by
  have h1 : ¬ (1 ≥ first b0 &&& 7) := by omega
  simp [FullRune, h1]

theorem FullRune_two (b0 b1 : Nat) (h : 2 < first b0 &&& 7)
    (h1 : (acceptRanges (first b0 >>> 4)).1 ≤ b1) (h2 : b1 ≤ (acceptRanges (first b0 >>> 4)).2) :
    FullRune [b0, b1] = false := by
  have h3 : ¬ (2 ≥ first b0 &&& 7) := by omega
  simp [FullRune, h3]
  omega

theorem FullRune_three (b0 b1 b2 : Nat) (h : 3 < first b0 &&& 7)
    (h1 : (acceptRanges (first b0 >>> 4)).1 ≤ b1) (h2 : b1 ≤ (acceptRanges (first b0 >>> 4)).2)
    (h3 : locb ≤ b2) (h4 : b2 ≤ hicb) :
    FullRune [b0, b1, b2] = false := by
  have h5 : ¬ (3 ≥ first b0 &&& 7) := by omega
  simp [FullRune, h5]
  omega

theorem FullRune_of_width (p : List Nat) (hp : p ≠ [])
    (h : first (p.getD 0 0) &&& 7 ≤ p.length) : FullRune p = true := by
  have hl : p.length ≠ 0 := by
    intro h0; exact hp (List.length_eq_zero.mp h0)
  unfold FullRune
  simp only [hl, if_false]
  rw [if_pos h]

theorem lead_of_first {b0 b1 w x lo hi : Nat} (hf : first b0 = x) (hw : x &&& 7 = w)
    (hlt : x < as) (ha : acceptRanges (x >>> 4) = (lo, hi)) (h1 : lo ≤ b1) (h2 : b1 ≤ hi) :
    Lead b0 b1 w := by
  unfold Lead
  rw [hf, ha]
  exact ⟨hw, hlt, h1, h2⟩

theorem first_lead2 {b : Nat} (h1 : 0xC2 ≤ b) (h2 : b < 0xE0) : first b = s1 := by
  have n1 : ¬ b < 0x80 := by omega
  have n2 : ¬ b < 0xC2 := by omega
  simp only [first, n1, n2, h2, if_false, if_true]

theorem first_lead3 {b : Nat} (h1 : 0xE0 < b) (h2 : b < 0xF0) (h3 : b ≠ 0xED) :
    first b = s3 := by
  have n1 : ¬ b < 0x80 := by omega
  have n2 : ¬ b < 0xC2 := by omega
  have n3 : ¬ b < 0xE0 := by omega
  have n4 : ¬ b = 0xE0 := by omega
  by_cases h4 : b < 0xED
  · simp only [first, n1, n2, n3, n4, h4, if_false, if_true]
  · simp only [first, n1, n2, n3, n4, h4, h3, h2, if_false, if_true]

theorem first_lead4 {b : Nat} (h1 : 0xF0 < b) (h2 : b < 0xF4) : first b = s6 := by
  have n1 : ¬ b < 0x80 := by omega
  have n2 : ¬ b < 0xC2 := by omega
  have n3 : ¬ b < 0xE0 := by omega
  have n4 : ¬ b = 0xE0 := by omega
  have n5 : ¬ b < 0xED := by omega
  have n6 : ¬ b = 0xED := by omega
  have n7 : ¬ b < 0xF0 := by omega
  have n8 : ¬ b = 0xF0 := by omega
  simp only [first, n1, n2, n3, n4, n5, n6, n7, n8, h2, if_false, if_true]

theorem lead_two {c : Nat} (h1 : 0x80 ≤ c) (h2 : c < 0x800) :
    Lead (0xC0 + c / 64) (0x80 + c % 64) 2 :=
  lead_of_first (first_lead2 (by omega) (by omega)) (by decide) (by decide)
    (show acceptRanges (s1 >>> 4) = (0x80, 0xBF) by decide) (by omega) (by omega)

theorem lead_three {c : Nat} (h1 : 0x800 ≤ c) (h2 : c < 0x10000)
    (hv : c < 0xD800 ∨ 0xDFFF < c) :
    Lead (0xE0 + c / 4096) (0x80 + c / 64 % 64) 3 := by
  by_cases ha : c < 0x1000
  · have hb : 0xE0 + c / 4096 = 0xE0 := by omega
    rw [hb]
    exact lead_of_first (show first 0xE0 = s2 by decide) (by decide) (by decide)
      (show acceptRanges (s2 >>> 4) = (0xA0, 0xBF) by decide) (by omega) (by omega)
  · by_cases hd : 0xD000 ≤ c ∧ c < 0xE000
    · have hb : 0xE0 + c / 4096 = 0xED := by omega
      rw [hb]
      exact lead_of_first (show first 0xED = s4 by decide) (by decide) (by decide)
        (show acceptRanges (s4 >>> 4) = (0x80, 0x9F) by decide) (by omega) (by omega)
    · exact lead_of_first (first_lead3 (by omega) (by omega) (by omega)) (by decide)
        (by decide) (show acceptRanges (s3 >>> 4) = (0x80, 0xBF) by decide) (by omega)
        (by omega)

theorem lead_four {c : Nat} (h1 : 0x10000 ≤ c) (h2 : c ≤ 0x10FFFF) :
    Lead (0xF0 + c / 262144) (0x80 + c / 4096 % 64) 4 := by
  by_cases ha : c < 0x40000
  · have hb : 0xF0 + c / 262144 = 0xF0 := by omega
    rw [hb]
    exact lead_of_first (show first 0xF0 = s5 by decide) (by decide) (by decide)
      (show acceptRanges (s5 >>> 4) = (0x90, 0xBF) by decide) (by omega) (by omega)
  · by_cases hd : 0x100000 ≤ c
    · have hb : 0xF0 + c / 262144 = 0xF4 := by omega
      rw [hb]
      exact lead_of_first (show first 0xF4 = s7 by decide) (by decide) (by decide)
        (show acceptRanges (s7 >>> 4) = (0x80, 0x8F) by decide) (by omega) (by omega)
    · exact lead_of_first (first_lead4 (by omega) (by omega)) (by decide) (by decide)
        (show acceptRanges (s6 >>> 4) = (0x80, 0xBF) by decide) (by omega) (by omega)

theorem DecodeRune_two (b0 b1 : Nat) (hl : Lead b0 b1 2) :
    DecodeRune [b0, b1] = ((b0 &&& mask2) <<< 6 ||| (b1 &&& maskx), 2) := by
  obtain ⟨hw, hlt, h1, h2⟩ := hl
  have h3 : ¬ (first b0 ≥ as) := by omega
  have h4 : ¬ (b1 < (acceptRanges (first b0 >>> 4)).1 ∨ (acceptRanges (first b0 >>> 4)).2 < b1) := by
    omega
  simp [DecodeRune, h3, hw, h4]

theorem DecodeRune_three (b0 b1 b2 : Nat) (hl : Lead b0 b1 3) (h5 : locb ≤ b2) (h6 : b2 ≤ hicb) :
    DecodeRune [b0, b1, b2] =
      ((b0 &&& mask3) <<< 12 ||| (b1 &&& maskx) <<< 6 ||| (b2 &&& maskx), 3) := by
  obtain ⟨hw, hlt, h1, h2⟩ := hl
  have h3 : ¬ (first b0 ≥ as) := by omega
  have h4 : ¬ (b1 < (acceptRanges (first b0 >>> 4)).1 ∨ (acceptRanges (first b0 >>> 4)).2 < b1) := by
    omega
  have h7 : ¬ (b2 < locb ∨ hicb < b2) := by omega
  simp [DecodeRune, h3, hw, h4, h7]

theorem DecodeRune_four (b0 b1 b2 b3 : Nat) (hl : Lead b0 b1 4) (h5 : locb ≤ b2)
    (h6 : b2 ≤ hicb) (h8 : locb ≤ b3) (h9 : b3 ≤ hicb) :
    DecodeRune [b0, b1, b2, b3] =
      ((b0 &&& mask4) <<< 18 ||| (b1 &&& maskx) <<< 12 ||| (b2 &&& maskx) <<< 6
        ||| (b3 &&& maskx), 4) := by
  obtain ⟨hw, hlt, h1, h2⟩ := hl
  have h3 : ¬ (first b0 ≥ as) := by omega
  have h4 : ¬ (b1 < (acceptRanges (first b0 >>> 4)).1 ∨ (acceptRanges (first b0 >>> 4)).2 < b1) := by
    omega
  have h7 : ¬ (b2 < locb ∨ hicb < b2) := by omega
  have h10 : ¬ (b3 < locb ∨ hicb < b3) := by omega
  simp [DecodeRune, h3, hw, h4, h7, h10]

/-- For a valid code point `c ≥ 0x80`: its encoding has 2 to 4 bytes, begins
with a byte `≥ RuneSelf`, is a full rune and decodes to `c` with its own width,
and none of its non-empty proper initial segments is a full rune. -/
theorem encodeRune_facts (c : Nat) (hv : ValidRune c) (h80 : 0x80 ≤ c) :
    2 ≤ (encodeRune c).length ∧ (encodeRune c).length ≤ 4 ∧
      RuneSelf ≤ (encodeRune c).getD 0 0 ∧
      FullRune (encodeRune c) = true ∧
      DecodeRune (encodeRune c) = (c, (encodeRune c).length) ∧
      ∀ k, 0 < k → k < (encodeRune c).length → FullRune ((encodeRune c).take k) = false := by
  unfold ValidRune at hv
  by_cases h2 : c < 0x800
  · have hl := lead_two h80 h2
    rw [encodeRune_two h80 h2]
    refine ⟨by simp, by simp, by simp [RuneSelf]; omega, ?_, ?_, ?_⟩
    · exact FullRune_of_width _ (by simp) (by rw [List.getD_cons_zero, hl.1]; simp)
    · rw [DecodeRune_two _ _ hl, decode_two _ _ (by omega) (by omega)]
      simp only [List.length_cons, List.length_nil, Prod.mk.injEq, and_true]
      omega
    · intro k hk0 hk
      simp only [List.length_cons, List.length_nil] at hk
      have hk1 : k = 1 := by omega
      subst hk1
      exact FullRune_one _ (by rw [hl.1]; omega)
  · by_cases h3 : c < 0x10000
    · have hl := lead_three (Nat.le_of_not_lt h2) h3 (by omega)
      rw [encodeRune_three (Nat.le_of_not_lt h2) h3]
      refine ⟨by simp, by simp, by simp [RuneSelf]; omega, ?_, ?_, ?_⟩
      · exact FullRune_of_width _ (by simp) (by rw [List.getD_cons_zero, hl.1]; simp)
      · rw [DecodeRune_three _ _ _ hl (by simp [locb]) (by simp only [hicb]; omega),
          decode_three _ _ _ (by omega) (by omega) (by omega)]
        simp only [List.length_cons, List.length_nil, Prod.mk.injEq, and_true]
        omega
      · intro k hk0 hk
        simp only [List.length_cons, List.length_nil] at hk
        have hk1 : k = 1 ∨ k = 2 := by omega
        rcases hk1 with hk1 | hk1 <;> subst hk1
        · exact FullRune_one _ (by rw [hl.1]; omega)
        · exact FullRune_two _ _ (by rw [hl.1]; omega) hl.2.2.1 hl.2.2.2
    · have hl := lead_four (Nat.le_of_not_lt h3) (by omega)
      rw [encodeRune_four (Nat.le_of_not_lt h3)]
      refine ⟨by simp, by simp, by simp [RuneSelf]; omega, ?_, ?_, ?_⟩
      · exact FullRune_of_width _ (by simp) (by rw [List.getD_cons_zero, hl.1]; simp)
      · rw [DecodeRune_four _ _ _ _ hl (by simp [locb]) (by simp only [hicb]; omega)
            (by simp [locb]) (by simp only [hicb]; omega),
          decode_four _ _ _ _ (by omega) (by omega) (by omega) (by omega)]
        simp only [List.length_cons, List.length_nil, Prod.mk.injEq, and_true]
        omega
      · intro k hk0 hk
        simp only [List.length_cons, List.length_nil] at hk
        have hk1 : k = 1 ∨ k = 2 ∨ k = 3 := by omega
        rcases hk1 with hk1 | hk1 | hk1 <;> subst hk1
        · exact FullRune_one _ (by rw [hl.1]; omega)
        · exact FullRune_two _ _ (by rw [hl.1]; omega) hl.2.2.1 hl.2.2.2
        · exact FullRune_three _ _ _ (by rw [hl.1]; omega) hl.2.2.1 hl.2.2.2 (by simp [locb])
            (by simp only [hicb]; omega)

end utf8

/-! ### A rune that arrives in two pieces -/

theorem recv_ok (rd : Reader) (s : ReadResult) (hch : rd.ch = true) (hin : 0 < rd.inflight)
    (hfit : rd.r + s.data.length ≤ rd.buf.length) :
    recv rd s = .ok { rd with
      buf := rd.buf.take rd.r ++ s.data ++ rd.buf.drop (rd.r + s.data.length),
      inflight := rd.inflight - 1 } := by
  unfold recv
  rw [if_neg (by rw [hch]; simp; omega), if_neg (by omega)]

theorem fill_length (buf d : List Nat) (a : Nat) (h : a + d.length ≤ buf.length) :
    (buf.take a ++ d ++ buf.drop (a + d.length)).length = buf.length := by
  simp only [List.length_append, List.length_take, List.length_drop]
  omega

theorem fill_region (buf d : List Nat) (a : Nat) (h : a + d.length ≤ buf.length) :
    ((buf.take a ++ d ++ buf.drop (a + d.length)).drop a).take d.length = d := by
  have h1 : (buf.take a).length = a := by
    rw [List.length_take]; omega
  rw [List.append_assoc, List.drop_left' h1, List.take_left]

theorem ReadRuneWithTimeout_select_incomplete (rd : Reader) (pre : List Nat)
    (hW : rd.l = rd.r) (hch : rd.ch = true) (hin : 0 < rd.inflight)
    (hfit : rd.r + pre.length ≤ rd.buf.length) (hnf : utf8.FullRune pre = false) :
    ∃ rd1, ReadRuneWithTimeout.select rd (.done ⟨pre, none⟩) = .ok (.again rd1) ∧
      rd1.l = 0 ∧ rd1.r = pre.length ∧ rd1.ch = true ∧ rd1.inflight = rd.inflight ∧
      rd1.buf.length = rd.buf.length ∧ rd1.buf.take pre.length = pre := by
  have hlen := fill_length rd.buf pre rd.r hfit
  have hreg := fill_region rd.buf pre rd.r hfit
  have hsl : slice (rd.buf.take rd.r ++ pre ++ rd.buf.drop (rd.r + pre.length)) rd.l
      (rd.r + pre.length) = .ok pre := by
    rw [slice_ok (by omega) (by rw [hlen]; exact hfit), hW, Nat.add_sub_cancel_left, hreg]
  have hsh := shiftBufLeft_ok
    { rd with
      buf := rd.buf.take rd.r ++ pre ++ rd.buf.drop (rd.r + pre.length),
      inflight := rd.inflight - 1, r := rd.r + pre.length }
    (by show rd.l ≤ rd.r + pre.length; omega)
    (by show rd.r + pre.length ≤ _; rw [hlen]; exact hfit)
  simp only [hW, Nat.add_sub_cancel_left, hreg] at hsh
  have hlen2 : (pre ++ List.drop pre.length
      (rd.buf.take rd.r ++ pre ++ rd.buf.drop (rd.r + pre.length))).length = rd.buf.length := by
    rw [List.length_append, List.length_drop, hlen]; omega
  refine ⟨startSourceRead
    { buf := pre ++ List.drop pre.length
        (rd.buf.take rd.r ++ pre ++ rd.buf.drop (rd.r + pre.length)),
      l := 0, r := pre.length, ch := rd.ch, inflight := rd.inflight - 1,
      overlap := rd.overlap }, ?_, ?_, ?_, ?_, ?_, ?_, ?_⟩
  · simp only [ReadRuneWithTimeout.select, recv_ok rd ⟨pre, none⟩ hch hin hfit, hsl, hnf]
    simp only [Bool.false_eq_true, ne_eq, not_true_eq_false, or_self, if_false, hW, hsh]
    rw [goReadToChannel, if_pos (by show pre.length ≤ _; rw [hlen2]; omega)]
  · rfl
  · rfl
  · exact hch
  · show rd.inflight - 1 + 1 = rd.inflight
    omega
  · exact hlen2
  · show List.take pre.length (pre ++ _) = pre
    rw [List.take_left]

theorem ReadRuneWithTimeout_select_complete (rd : Reader) (pre rest : List Nat) (c : Nat)
    (hl : rd.l = 0) (hr : rd.r = pre.length) (hch : rd.ch = true) (hin : 0 < rd.inflight)
    (hfit : pre.length + rest.length ≤ rd.buf.length) (hbuf : rd.buf.take pre.length = pre)
    (hrest : rest ≠ [])
    (hself : utf8.RuneSelf ≤ (pre ++ rest).getD 0 0)
    (hfull : utf8.FullRune (pre ++ rest) = true)
    (hdec : utf8.DecodeRune (pre ++ rest) = (c, (pre ++ rest).length)) :
    ∃ rd2, ReadRuneWithTimeout.select rd (.done ⟨rest, none⟩) =
        .ok (.ret rd2 ⟨c, (pre ++ rest).length, none⟩) ∧
      rd2.l = (pre ++ rest).length ∧ rd2.r = (pre ++ rest).length ∧ rd2.ch = false ∧
      rd2.inflight = rd.inflight - 1 := by
  have hfit2 : rd.r + rest.length ≤ rd.buf.length := by omega
  have hlen := fill_length rd.buf rest rd.r hfit2
  have hbuf2 : rd.buf.take rd.r ++ rest ++ rd.buf.drop (rd.r + rest.length)
      = (pre ++ rest) ++ rd.buf.drop (pre.length + rest.length) := by
    rw [hr, hbuf]
  have hrl : 0 < rest.length := List.length_pos.mpr hrest
  have hsl : slice (rd.buf.take rd.r ++ rest ++ rd.buf.drop (rd.r + rest.length)) rd.l
      (rd.r + rest.length) = .ok (pre ++ rest) := by
    rw [slice_ok (by omega) (by rw [hlen]; exact hfit2), hl, hbuf2, List.drop_zero, hr,
      Nat.sub_zero, ← List.length_append, List.take_left]
  have hidx : index (rd.buf.take rd.r ++ rest ++ rd.buf.drop (rd.r + rest.length)) rd.l
      = .ok ((pre ++ rest).getD 0 0) := by
    rw [index_ok (by rw [hlen]; omega), hl, hbuf2]
    congr 1
    cases hpr : pre ++ rest with
    | nil =>
      have := congrArg List.length hpr
      simp only [List.length_append, List.length_nil] at this
      omega
    | cons x xs => simp
  have hne : isEmpty { rd with
      buf := rd.buf.take rd.r ++ rest ++ rd.buf.drop (rd.r + rest.length),
      inflight := rd.inflight - 1, r := rd.r + rest.length } = false := by
    simp only [isEmpty, beq_eq_false_iff_ne]; omega
  refine ⟨Reader.mk (rd.buf.take rd.r ++ rest ++ rd.buf.drop (rd.r + rest.length))
      (rd.l + (pre ++ rest).length) (rd.r + rest.length) false
      (rd.inflight - 1) rd.overlap, ?_, ?_, ?_, ?_, ?_⟩
  · simp only [ReadRuneWithTimeout.select, recv_ok rd ⟨rest, none⟩ hch hin hfit2, hsl, hfull,
      hne, takeRune, hidx]
    simp only [true_or, if_true, ge_iff_le, hself, hdec, Bool.false_eq_true, if_false]
  · show rd.l + (pre ++ rest).length = _
    omega
  · show rd.r + rest.length = _
    rw [hr, List.length_append]
  · rfl
  · rfl

theorem readIfNotReading_empty (rd : Reader) (he : rd.l = rd.r) (hr : rd.r ≤ rd.buf.length) :
    ∃ rdW, readIfNotReading rd = .ok rdW ∧ rdW.l = rdW.r ∧ rdW.ch = true ∧
      rdW.buf.length = rd.buf.length ∧ (rd.ch = true → rdW = rd) ∧
      (rd.ch = false → rdW.r = 0 ∧ 0 < rdW.inflight) := by
  cases hc : rd.ch with
  | true =>
    refine ⟨rd, ?_, he, hc, rfl, fun _ => rfl, fun h => by cases h⟩
    simp [readIfNotReading, hc]
  | false =>
    have hsh := shiftBufLeft_ok { rd with ch := true } (by show rd.l ≤ rd.r; omega) hr
    simp only [he, Nat.sub_self, List.take_zero, List.nil_append, List.drop_zero] at hsh
    refine ⟨startSourceRead (Reader.mk rd.buf 0 0 true rd.inflight rd.overlap), ?_, rfl, rfl,
      rfl, (fun h => by cases h), fun _ => ⟨rfl, Nat.succ_pos _⟩⟩
    simp only [readIfNotReading, hc, if_true, he, hsh]
    rw [goReadToChannel, if_pos (Nat.zero_le _)]

/-- C8: a valid code point `c` whose UTF-8 encoding has more than one byte
arrives, in a reader whose unconsumed region is empty, in two background fills
without error: the first `k` bytes of the encoding (`0 < k < w`), then the rest.
After the first fill `ReadRuneWithTimeout` has not returned: it is waiting in
the race again, with the handle set and a background read in flight (and if
the deadline fired then, it would return `ErrTimeout{}` and no rune).  After the
second fill it returns `(c, w, nil)`, the read cursor is advanced by `w` and
the handle is nil.  (The fills are fills that can happen: the buffer has room
for a rune, and when the read was already outstanding on entry it is in
flight and its slice `buf[r:]` has room for the first fill.) -/
theorem ReadRuneWithTimeout_split_rune (rd : Reader) (c k : Nat)
    (hv : utf8.ValidRune c) (hk0 : 0 < k) (hk : k < (utf8.encodeRune c).length)
    (he : rd.l = rd.r) (hr : rd.r ≤ rd.buf.length) (hcap : 4 ≤ rd.buf.length)
    (hch : rd.ch = true → 0 < rd.inflight ∧ rd.r + k ≤ rd.buf.length) :
    ∃ rd1 rd2 : Reader,
      ReadRuneWithTimeout rd [.done ⟨(utf8.encodeRune c).take k, none⟩] =
        .error (.blocked rd1) ∧
      rd1.ch = true ∧ 0 < rd1.inflight ∧
      ReadRuneWithTimeout rd [.done ⟨(utf8.encodeRune c).take k, none⟩, .deadline] =
        .ok (rd1, ⟨0, 0, some .ErrTimeout⟩) ∧
      ReadRuneWithTimeout rd
          [.done ⟨(utf8.encodeRune c).take k, none⟩, .done ⟨(utf8.encodeRune c).drop k, none⟩] =
        .ok (rd2, ⟨c, (utf8.encodeRune c).length, none⟩) ∧
      2 ≤ (utf8.encodeRune c).length ∧
      rd2.l = rd1.l + (utf8.encodeRune c).length ∧ rd2.ch = false := by
  have h80 : 0x80 ≤ c := by
    by_contra hlt
    have h1 : utf8.encodeRune c = [c] := by
      unfold utf8.encodeRune
      rw [if_pos (by omega)]
    rw [h1] at hk
    simp only [List.length_cons, List.length_nil] at hk
    omega
  obtain ⟨hw2, hw4, hself, hfull, hdec, hpre⟩ := utf8.encodeRune_facts c hv h80
  have hnf := hpre k hk0 hk
  have hplen : ((utf8.encodeRune c).take k).length = k := by
    rw [List.length_take]; omega
  have hrlen : ((utf8.encodeRune c).drop k).length = (utf8.encodeRune c).length - k := by
    rw [List.length_drop]
  have hrest : (utf8.encodeRune c).drop k ≠ [] := by
    intro h0
    have := congrArg List.length h0
    rw [hrlen] at this
    simp only [List.length_nil] at this
    omega
  have happ : (utf8.encodeRune c).take k ++ (utf8.encodeRune c).drop k = utf8.encodeRune c :=
    List.take_append_drop k _
  have hfr : hasFullRune rd = .ok false := by
    have hE : isEmpty rd = true := by simp [isEmpty, he]
    simp [hasFullRune, hE]
  obtain ⟨rdW, hW, hWe, hWch, hWlen, hW1, hW2⟩ := readIfNotReading_empty rd he hr
  have hWin : 0 < rdW.inflight ∧ rdW.r + k ≤ rdW.buf.length := by
    cases hc : rd.ch with
    | true => rw [hW1 hc]; exact hch hc
    | false =>
      obtain ⟨h1, h2⟩ := hW2 hc
      exact ⟨h2, by rw [h1, hWlen]; omega⟩
  obtain ⟨rd1, hs1, h1l, h1r, h1ch, h1in, h1len, h1buf⟩ :=
    ReadRuneWithTimeout_select_incomplete rdW ((utf8.encodeRune c).take k) hWe hWch hWin.1
      (by rw [hplen]; exact hWin.2) hnf
  obtain ⟨rd2, hs2, h2l, _, h2ch, _⟩ :=
    ReadRuneWithTimeout_select_complete rd1 ((utf8.encodeRune c).take k)
      ((utf8.encodeRune c).drop k) c h1l h1r h1ch (by rw [h1in]; exact hWin.1)
      (by rw [hplen, hrlen, h1len, hWlen]; omega) h1buf hrest
      (by rw [happ]; exact hself) (by rw [happ]; exact hfull) (by rw [happ]; exact hdec)
  rw [happ] at hs2 h2l
  refine ⟨rd1, rd2, ?_, h1ch, by rw [h1in]; exact hWin.1, ?_, ?_, hw2, by rw [h2l, h1l]; omega,
    h2ch⟩
  · simp only [ReadRuneWithTimeout, hfr, hW, ReadRuneWithTimeout.loop, hs1]
  · simp only [ReadRuneWithTimeout, hfr, hW, ReadRuneWithTimeout.loop, hs1]
    rfl
  · simp only [ReadRuneWithTimeout, hfr, hW, ReadRuneWithTimeout.loop, hs1, hs2]

/-- C8 at the example of the specification: the three-byte code point U+20AC
arrives as two bytes and then one byte in the reader `NewReaderSize` returns
for size 16. -/
theorem ReadRuneWithTimeout_split_rune_witness :
    ∃ rd1 rd2 : Reader,
      ReadRuneWithTimeout ⟨List.replicate 16 0, 0, 0, true, 1, false⟩ [.done ⟨(utf8.encodeRune 0x20AC).take 2, none⟩] =
        .error (.blocked rd1) ∧
      rd1.ch = true ∧ 0 < rd1.inflight ∧
      ReadRuneWithTimeout ⟨List.replicate 16 0, 0, 0, true, 1, false⟩
          [.done ⟨(utf8.encodeRune 0x20AC).take 2, none⟩, .deadline] =
        .ok (rd1, ⟨0, 0, some .ErrTimeout⟩) ∧
      ReadRuneWithTimeout ⟨List.replicate 16 0, 0, 0, true, 1, false⟩
          [.done ⟨(utf8.encodeRune 0x20AC).take 2, none⟩,
            .done ⟨(utf8.encodeRune 0x20AC).drop 2, none⟩] =
        .ok (rd2, ⟨0x20AC, (utf8.encodeRune 0x20AC).length, none⟩) ∧
      2 ≤ (utf8.encodeRune 0x20AC).length ∧
      rd2.l = rd1.l + (utf8.encodeRune 0x20AC).length ∧ rd2.ch = false :=
  ReadRuneWithTimeout_split_rune ⟨List.replicate 16 0, 0, 0, true, 1, false⟩ 0x20AC 2 (by decide) (by decide)
    (by decide) rfl (by decide) (by decide) (fun _ => by decide)

/-! ### Calls on a reader that holds unconsumed bytes -/

theorem readIfNotReading_ok (rd : Reader) (hl : rd.l ≤ rd.r) (hr : rd.r ≤ rd.buf.length) :
    ∃ rdW, readIfNotReading rd = .ok rdW ∧ rdW.ch = true ∧
      rdW.inflight = rd.inflight + (if rd.ch then 0 else 1) := by
  cases hc : rd.ch with
  | true =>
    refine ⟨rd, ?_, hc, ?_⟩
    · simp [readIfNotReading, hc]
    · simp
  | false =>
    have hsh := shiftBufLeft_ok { rd with ch := true } hl hr
    have hlen : (List.take (rd.r - rd.l) (List.drop rd.l rd.buf)
        ++ List.drop (rd.r - rd.l) rd.buf).length = rd.buf.length := by
      rw [List.length_append, length_region hl hr, List.length_drop]; omega
    refine ⟨startSourceRead (Reader.mk (List.take (rd.r - rd.l) (List.drop rd.l rd.buf)
        ++ List.drop (rd.r - rd.l) rd.buf) 0 (rd.r - rd.l) true rd.inflight rd.overlap),
      ?_, rfl, ?_⟩
    · simp only [readIfNotReading, hc, if_true, hsh]
      rw [goReadToChannel, if_pos (by show rd.r - rd.l ≤ _; rw [hlen]; omega)]
    · simp [startSourceRead]

theorem ReadWithTimeout_select_err {st : SliceLoop} {e : Event} {rd1 : Reader} {x : SliceRet}
    (hn : 0 < st.n) (h : ReadWithTimeout.select st e = .ok (.ret rd1 x)) :
    x.err = none ∨ ∃ s, e = .done s ∧ x.err = s.err := by
  cases e with
  | deadline =>
    simp only [ReadWithTimeout.select, Except.ok.injEq, Step.ret.injEq] at h
    obtain ⟨_, h2⟩ := h
    subst h2
    exact Or.inl (by simp [Nat.ne_of_gt hn])
  | done s =>
    simp only [ReadWithTimeout.select] at h
    cases hr : recv st.rd s with
    | error f => simp [hr] at h
    | ok rd0 =>
      simp only [hr] at h
      cases hc : copyBufTo { rd0 with r := rd0.r + s.data.length } st.p with
      | error f => simp [hc] at h
      | ok res =>
        obtain ⟨rd2, bytes, count⟩ := res
        simp only [hc] at h
        split at h
        · simp only [Except.ok.injEq, Step.ret.injEq] at h
          obtain ⟨_, h2⟩ := h
          subst h2
          exact Or.inr ⟨s, rfl, rfl⟩
        · split at h
          · cases hs : shiftBufLeft rd2 with
            | error f => simp [hs] at h
            | ok rd3 =>
              simp only [hs] at h
              cases hg : goReadToChannel rd3 with
              | error f => simp [hg] at h
              | ok rd4 => simp [hg] at h
          · simp only [Except.ok.injEq, Step.ret.injEq] at h
            obtain ⟨_, h2⟩ := h
            subst h2
            exact Or.inl rfl

theorem ReadWithTimeout_loop_err (evs : List Event) :
    ∀ (st : SliceLoop) (rd1 : Reader) (x : SliceRet), 0 < st.n →
      ReadWithTimeout.loop st evs = .ok (rd1, x) →
      x.err = none ∨ ∃ s, Event.done s ∈ evs ∧ x.err = s.err := by
  induction evs with
  | nil =>
    intro st rd1 x _ h
    simp [ReadWithTimeout.loop] at h
  | cons e es ih =>
    intro st rd1 x hn h
    simp only [ReadWithTimeout.loop] at h
    cases hs : ReadWithTimeout.select st e with
    | error f => simp [hs] at h
    | ok stp =>
      cases stp with
      | ret rd2 y =>
        simp only [hs, Except.ok.injEq, Prod.mk.injEq] at h
        obtain ⟨h1, h2⟩ := h
        subst h1; subst h2
        rcases ReadWithTimeout_select_err hn hs with h3 | ⟨s, h3, h4⟩
        · exact Or.inl h3
        · exact Or.inr ⟨s, by rw [h3]; exact List.mem_cons_self _ _, h4⟩
      | again st1 =>
        simp only [hs] at h
        have hsa := ReadWithTimeout_select_again hs
        rcases ih st1 rd1 x (Nat.lt_of_lt_of_le hn hsa.2.2) h with h3 | ⟨s, h3, h4⟩
        · exact Or.inl h3
        · exact Or.inr ⟨s, List.mem_cons_of_mem _ h3, h4⟩

theorem ReadByteWithTimeout_buffered (rd : Reader) (hl : rd.l < rd.r)
    (hr : rd.r ≤ rd.buf.length) (evs : List Event) :
    ReadByteWithTimeout rd evs = .ok ({ rd with l := rd.l + 1 }, ⟨rd.buf.getD rd.l 0, none⟩) := by
  have hne : isEmpty rd = false := by
    simp only [isEmpty, beq_eq_false_iff_ne]; omega
  have hidx : index rd.buf rd.l = .ok (rd.buf.getD rd.l 0) := index_ok (by omega)
  simp [ReadByteWithTimeout, hne, hidx]

theorem ReadWithTimeout_buffered (rd : Reader) (hl : rd.l < rd.r) (hr : rd.r ≤ rd.buf.length)
    (p : Nat) (evs : List Event) (hp : p ≤ rd.r - rd.l) :
    ReadWithTimeout rd p evs =
      .ok ({ rd with l := rd.l + p }, ⟨p, (rd.buf.drop rd.l).take p, none⟩) := by
  have hne : isEmpty rd = false := by
    simp only [isEmpty, beq_eq_false_iff_ne]; omega
  have hsl := slice_ok (Nat.le_of_lt hl) hr
  have hlen := length_region (Nat.le_of_lt hl) hr
  have hmin : min p (rd.r - rd.l) = p := by omega
  have htk : List.take p (List.take (rd.r - rd.l) (List.drop rd.l rd.buf))
      = List.take p (List.drop rd.l rd.buf) := by
    rw [List.take_take, hmin]
  simp [ReadWithTimeout, hne, copyBufTo, hsl, hlen, hmin, htk]

theorem ReadRuneWithTimeout_buffered (rd : Reader) (hl : rd.l < rd.r)
    (hr : rd.r ≤ rd.buf.length)
    (hfull : utf8.FullRune ((rd.buf.drop rd.l).take (rd.r - rd.l)) = true) :
    ∃ x : RuneRet, x.err = none ∧
      ∀ evs, ReadRuneWithTimeout rd evs = .ok ({ rd with l := rd.l + x.size }, x) := by
  have hne : isEmpty rd = false := by
    simp only [isEmpty, beq_eq_false_iff_ne]; omega
  have hsl := slice_ok (Nat.le_of_lt hl) hr
  have hidx : index rd.buf rd.l = .ok (rd.buf.getD rd.l 0) := index_ok (by omega)
  have hfr : hasFullRune rd = .ok true := by
    unfold hasFullRune
    rw [hne, hsl]
    simp only [Bool.not_false, if_true, hfull]
  by_cases hb : rd.buf.getD rd.l 0 ≥ utf8.RuneSelf
  · refine ⟨⟨(utf8.DecodeRune ((rd.buf.drop rd.l).take (rd.r - rd.l))).1,
      (utf8.DecodeRune ((rd.buf.drop rd.l).take (rd.r - rd.l))).2, none⟩, rfl, ?_⟩
    intro evs
    unfold ReadRuneWithTimeout takeRune
    rw [hfr, hidx]
    simp only [hb, if_true, hsl]
  · refine ⟨⟨rd.buf.getD rd.l 0, 1, none⟩, rfl, ?_⟩
    intro evs
    unfold ReadRuneWithTimeout takeRune
    rw [hfr, hidx]
    simp only [hb, if_false]

theorem ReadWithTimeout_short (rd : Reader) (hl : rd.l < rd.r) (hr : rd.r ≤ rd.buf.length)
    (p : Nat) (hp : rd.r - rd.l < p) :
    ∃ rdW, ReadWithTimeout rd p [] = .error (.blocked rdW) ∧
      rdW.ch = true ∧ rdW.inflight = rd.inflight + (if rd.ch then 0 else 1) ∧
      ∀ evs, ReadWithTimeout rd p (.deadline :: evs) =
        .ok (rdW, ⟨rd.r - rd.l, (rd.buf.drop rd.l).take (rd.r - rd.l), none⟩) := by
  have hne : isEmpty rd = false := by
    simp only [isEmpty, beq_eq_false_iff_ne]; omega
  have hsl := slice_ok (Nat.le_of_lt hl) hr
  have hlen := length_region (Nat.le_of_lt hl) hr
  have hmin : min p (rd.r - rd.l) = rd.r - rd.l := by omega
  have htk : List.take (rd.r - rd.l) (List.take (rd.r - rd.l) (List.drop rd.l rd.buf))
      = List.take (rd.r - rd.l) (List.drop rd.l rd.buf) := by
    rw [List.take_take]; simp
  have hpz : ¬ (p - (rd.r - rd.l) = 0) := by omega
  have hnz : ¬ (rd.r - rd.l = 0) := by omega
  obtain ⟨rdW, hW, hWch, hWin⟩ := readIfNotReading_ok { rd with l := rd.l + (rd.r - rd.l) }
    (by show rd.l + (rd.r - rd.l) ≤ rd.r; omega) hr
  refine ⟨rdW, ?_, hWch, hWin, ?_⟩
  · simp only [ReadWithTimeout, hne, Bool.not_false, if_true, copyBufTo, hsl, hlen, hmin, htk,
      hpz, if_false, ReadWithTimeout.wait, hW, ReadWithTimeout.loop]
  · intro evs
    simp only [ReadWithTimeout, hne, Bool.not_false, if_true, copyBufTo, hsl, hlen, hmin, htk,
      hpz, if_false, ReadWithTimeout.wait, hW, ReadWithTimeout.loop, ReadWithTimeout.select,
      hnz]

theorem ReadRuneWithTimeout_short (rd : Reader) (hl : rd.l < rd.r) (hr : rd.r ≤ rd.buf.length)
    (hnf : utf8.FullRune ((rd.buf.drop rd.l).take (rd.r - rd.l)) = false) :
    ∃ rdW, ReadRuneWithTimeout rd [] = .error (.blocked rdW) ∧
      rdW.ch = true ∧ rdW.inflight = rd.inflight + (if rd.ch then 0 else 1) ∧
      ∀ evs, ReadRuneWithTimeout rd (.deadline :: evs) =
        .ok (rdW, ⟨0, 0, some .ErrTimeout⟩) := by
  have hne : isEmpty rd = false := by
    simp only [isEmpty, beq_eq_false_iff_ne]; omega
  have hsl := slice_ok (Nat.le_of_lt hl) hr
  have hfr : hasFullRune rd = .ok false := by
    unfold hasFullRune
    rw [hne, hsl]
    simp only [Bool.not_false, if_true, hnf]
  obtain ⟨rdW, hW, hWch, hWin⟩ := readIfNotReading_ok rd (Nat.le_of_lt hl) hr
  refine ⟨rdW, ?_, hWch, hWin, ?_⟩
  · simp only [ReadRuneWithTimeout, hfr, hW, ReadRuneWithTimeout.loop]
  · intro evs
    simp only [ReadRuneWithTimeout, hfr, hW, ReadRuneWithTimeout.loop,
      ReadRuneWithTimeout.select]

/-- C7, as stated, fails.  The reader reached from the constructor's reader by
a rune read that received the first two bytes of a three-byte rune and timed
out holds two unconsumed bytes (`l = 0 < r = 2`); `ReadRuneWithTimeout` on it
enters the race and returns `ErrTimeout{}` when the deadline fires.  The reader
reached by a byte read that received `"ab"` holds one unconsumed byte;
`ReadWithTimeout` with `len(p) = 2` on it copies that byte and then waits in the
race (it has not returned when no event has happened), and when the source
then delivers one byte together with the error `ErrTimeout{}` (as a
`ReaderWithTimeout` used as source does), the call returns that error. -/
theorem buffered_data_still_races :
    NewReaderSize 4096 16 = .ok ⟨List.replicate 16 0, 0, 0, true, 1, false⟩ ∧
    ReadRuneWithTimeout ⟨List.replicate 16 0, 0, 0, true, 1, false⟩
        [.done ⟨[0xE2, 0x82], none⟩, .deadline] =
      .ok (⟨0xE2 :: 0x82 :: List.replicate 14 0, 0, 2, true, 1, false⟩,
        ⟨0, 0, some .ErrTimeout⟩) ∧
    ReadRuneWithTimeout ⟨0xE2 :: 0x82 :: List.replicate 14 0, 0, 2, true, 1, false⟩
        [.deadline] =
      .ok (⟨0xE2 :: 0x82 :: List.replicate 14 0, 0, 2, true, 1, false⟩,
        ⟨0, 0, some .ErrTimeout⟩) ∧
    ReadByteWithTimeout ⟨List.replicate 16 0, 0, 0, true, 1, false⟩
        [.done ⟨[97, 98], none⟩] =
      .ok (⟨97 :: 98 :: List.replicate 14 0, 1, 2, false, 0, false⟩, ⟨97, none⟩) ∧
    ReadWithTimeout ⟨97 :: 98 :: List.replicate 14 0, 1, 2, false, 0, false⟩ 2 [] =
      .error (.blocked ⟨97 :: 98 :: List.replicate 14 0, 0, 0, true, 1, false⟩) ∧
    ReadWithTimeout ⟨97 :: 98 :: List.replicate 14 0, 1, 2, false, 0, false⟩ 2
        [.done ⟨[99], some .ErrTimeout⟩] =
      .ok (⟨99 :: 98 :: List.replicate 14 0, 1, 1, false, 0, false⟩,
        ⟨2, [98, 99], some .ErrTimeout⟩) :=
  ⟨rfl, rfl, rfl, rfl, rfl, rfl⟩

/-- C7 amended: on a reader with a non-empty unconsumed region
(`l < r ≤ len(buf)`), whatever the events (so whatever the duration):
(1) `ReadByteWithTimeout` returns `buf[l]` with a nil error from the buffer
alone.
(2) `ReadWithTimeout` returns from the buffer alone when `len(p) ≤ r - l`.
(3) When `len(p) > r - l`, `ReadWithTimeout` enters the race: with no event it
is waiting (handle set, a background read started if the handle was nil), and
when the deadline fires first it returns the `r - l` buffered bytes with a nil
error.
(4) For every `p`, the error `ReadWithTimeout` returns is nil or the error of a
result the source delivered during the call: it returns `ErrTimeout{}` only
when the source itself reported `ErrTimeout{}`, never because of the deadline.
(5) `ReadRuneWithTimeout` returns with a nil error from the buffer alone when
the region begins with a full rune (`utf8.FullRune`).
(6) Otherwise `ReadRuneWithTimeout` enters the race: with no event it is
waiting, and when the deadline fires first it returns `(0, 0, ErrTimeout{})`.
"From the buffer alone": the result does not depend on the events, and only
the read cursor of the reader changes. -/
theorem buffered_data_first (rd : Reader) (hl : rd.l < rd.r) (hr : rd.r ≤ rd.buf.length) :
    (∀ evs, ReadByteWithTimeout rd evs =
      .ok ({ rd with l := rd.l + 1 }, ⟨rd.buf.getD rd.l 0, none⟩)) ∧
    (∀ p evs, p ≤ rd.r - rd.l → ReadWithTimeout rd p evs =
      .ok ({ rd with l := rd.l + p }, ⟨p, (rd.buf.drop rd.l).take p, none⟩)) ∧
    (∀ p, rd.r - rd.l < p →
      ∃ rdW, ReadWithTimeout rd p [] = .error (.blocked rdW) ∧
        rdW.ch = true ∧ rdW.inflight = rd.inflight + (if rd.ch then 0 else 1) ∧
        ∀ evs, ReadWithTimeout rd p (.deadline :: evs) =
          .ok (rdW, ⟨rd.r - rd.l, (rd.buf.drop rd.l).take (rd.r - rd.l), none⟩)) ∧
    (∀ p evs rd1 x, ReadWithTimeout rd p evs = .ok (rd1, x) →
      x.err = none ∨ ∃ s, Event.done s ∈ evs ∧ x.err = s.err) ∧
    (utf8.FullRune ((rd.buf.drop rd.l).take (rd.r - rd.l)) = true →
      ∃ x : RuneRet, x.err = none ∧
        ∀ evs, ReadRuneWithTimeout rd evs = .ok ({ rd with l := rd.l + x.size }, x)) ∧
    (utf8.FullRune ((rd.buf.drop rd.l).take (rd.r - rd.l)) = false →
      ∃ rdW, ReadRuneWithTimeout rd [] = .error (.blocked rdW) ∧
        rdW.ch = true ∧ rdW.inflight = rd.inflight + (if rd.ch then 0 else 1) ∧
        ∀ evs, ReadRuneWithTimeout rd (.deadline :: evs) =
          .ok (rdW, ⟨0, 0, some .ErrTimeout⟩)) := by
  refine ⟨ReadByteWithTimeout_buffered rd hl hr, ?_, ReadWithTimeout_short rd hl hr, ?_,
    ReadRuneWithTimeout_buffered rd hl hr, ReadRuneWithTimeout_short rd hl hr⟩
  · intro p evs hp
    exact ReadWithTimeout_buffered rd hl hr p evs hp
  · intro p evs rd1 x h
    by_cases hp : p ≤ rd.r - rd.l
    · rw [ReadWithTimeout_buffered rd hl hr p evs hp] at h
      simp only [Except.ok.injEq, Prod.mk.injEq] at h
      exact Or.inl (by rw [← h.2])
    · have hne : isEmpty rd = false := by
        simp only [isEmpty, beq_eq_false_iff_ne]; omega
      have hsl := slice_ok (Nat.le_of_lt hl) hr
      have hlen := length_region (Nat.le_of_lt hl) hr
      simp only [ReadWithTimeout, hne, Bool.not_false, if_true, copyBufTo, hsl, hlen] at h
      split at h
      · simp only [Except.ok.injEq, Prod.mk.injEq] at h
        exact Or.inl (by rw [← h.2])
      · unfold ReadWithTimeout.wait at h
        cases hrr : readIfNotReading { rd with l := rd.l + min p (rd.r - rd.l) } with
        | error f => simp [hrr] at h
        | ok rd2 =>
          simp only [hrr] at h
          refine ReadWithTimeout_loop_err evs _ rd1 x ?_ h
          show 0 < min p (rd.r - rd.l)
          omega

/-- C7 amended, at a concrete reader: capacity 4, two unconsumed bytes. -/
theorem buffered_data_first_witness :
    (∀ evs, ReadByteWithTimeout ⟨[104, 105, 0, 0], 0, 2, false, 0, false⟩ evs =
      .ok (⟨[104, 105, 0, 0], 0 + 1, 2, false, 0, false⟩,
        ⟨([104, 105, 0, 0] : List Nat).getD 0 0, none⟩)) ∧
    (∀ p evs, p ≤ 2 - 0 → ReadWithTimeout ⟨[104, 105, 0, 0], 0, 2, false, 0, false⟩ p evs =
      .ok (⟨[104, 105, 0, 0], 0 + p, 2, false, 0, false⟩,
        ⟨p, (([104, 105, 0, 0] : List Nat).drop 0).take p, none⟩)) ∧
    (∀ p, 2 - 0 < p →
      ∃ rdW, ReadWithTimeout ⟨[104, 105, 0, 0], 0, 2, false, 0, false⟩ p [] =
          .error (.blocked rdW) ∧
        rdW.ch = true ∧ rdW.inflight = 0 + (if false then 0 else 1) ∧
        ∀ evs, ReadWithTimeout ⟨[104, 105, 0, 0], 0, 2, false, 0, false⟩ p
            (.deadline :: evs) =
          .ok (rdW, ⟨2 - 0, (([104, 105, 0, 0] : List Nat).drop 0).take (2 - 0), none⟩)) ∧
    (∀ p evs rd1 x, ReadWithTimeout ⟨[104, 105, 0, 0], 0, 2, false, 0, false⟩ p evs =
      .ok (rd1, x) → x.err = none ∨ ∃ s, Event.done s ∈ evs ∧ x.err = s.err) ∧
    (utf8.FullRune ((([104, 105, 0, 0] : List Nat).drop 0).take (2 - 0)) = true →
      ∃ x : RuneRet, x.err = none ∧
        ∀ evs, ReadRuneWithTimeout ⟨[104, 105, 0, 0], 0, 2, false, 0, false⟩ evs =
          .ok (⟨[104, 105, 0, 0], 0 + x.size, 2, false, 0, false⟩, x)) ∧
    (utf8.FullRune ((([104, 105, 0, 0] : List Nat).drop 0).take (2 - 0)) = false →
      ∃ rdW, ReadRuneWithTimeout ⟨[104, 105, 0, 0], 0, 2, false, 0, false⟩ [] =
          .error (.blocked rdW) ∧
        rdW.ch = true ∧ rdW.inflight = 0 + (if false then 0 else 1) ∧
        ∀ evs, ReadRuneWithTimeout ⟨[104, 105, 0, 0], 0, 2, false, 0, false⟩
            (.deadline :: evs) =
          .ok (rdW, ⟨0, 0, some .ErrTimeout⟩)) :=
  buffered_data_first ⟨[104, 105, 0, 0], 0, 2, false, 0, false⟩ (by decide) (by decide)

/-! ### Where a background read is started -/

theorem copyBufTo_count {rd rd1 : Reader} {p count : Nat} {bytes : List Nat}
    (h : copyBufTo rd p = .ok (rd1, bytes, count)) :
    rd.l ≤ rd.r ∧ rd.r ≤ rd.buf.length ∧ count = min p (rd.r - rd.l) := by
  unfold copyBufTo slice at h
  by_cases hc : rd.l ≤ rd.r ∧ rd.r ≤ rd.buf.length
  · simp only [hc, and_self, if_true, Except.ok.injEq, Prod.mk.injEq] at h
    refine ⟨hc.1, hc.2, ?_⟩
    rw [← h.2.2, length_region hc.1 hc.2]
  · simp [hc] at h

theorem respawn_inflight {rd2 rd3 rd4 : Reader} (hs : shiftBufLeft rd2 = .ok rd3)
    (hg : goReadToChannel rd3 = .ok rd4) :
    rd4.ch = rd2.ch ∧ rd4.inflight = rd2.inflight + 1 := by
  have h3 := shiftBufLeft_ghost hs
  have h4 := goReadToChannel_ghost hg
  subst h4
  simp only [startSourceRead]
  exact ⟨h3.1, by rw [h3.2.1]⟩

theorem ReadWithTimeout_select_inflight (st : SliceLoop) (s : ReadResult) :
    (∀ st1, ReadWithTimeout.select st (.done s) = .ok (.again st1) →
      0 < st.rd.inflight ∧ st1.rd.inflight = st.rd.inflight ∧ st1.rd.ch = true) ∧
    (∀ rd1 x, ReadWithTimeout.select st (.done s) = .ok (.ret rd1 x) →
      0 < st.rd.inflight ∧ rd1.inflight = st.rd.inflight - 1) := by
  simp only [ReadWithTimeout.select]
  cases hr : recv st.rd s with
  | error f => simp
  | ok rd0 =>
    simp only []
    have hrg := recv_ghost hr
    cases hc : copyBufTo { rd0 with r := rd0.r + s.data.length } st.p with
    | error f => simp
    | ok res =>
      obtain ⟨rd2, bytes, count⟩ := res
      simp only []
      have hcg := (copyBufTo_ghost hc).1
      have i1 : rd2.inflight = st.rd.inflight - 1 := by rw [hcg]; exact hrg.2.2.2.1
      have i3 : rd2.ch = true := by rw [hcg]; exact hrg.2.2.1
      split
      · constructor
        · intro st1 h; simp at h
        · intro rd1 x h
          simp only [Except.ok.injEq, Step.ret.injEq] at h
          rw [← h.1]; exact ⟨hrg.2.1, i1⟩
      · split
        · cases hsh : shiftBufLeft rd2 with
          | error f => simp
          | ok rd3 =>
            simp only []
            cases hg : goReadToChannel rd3 with
            | error f => simp
            | ok rd4 =>
              simp only []
              have h5 := respawn_inflight hsh hg
              constructor
              · intro st1 h
                simp only [Except.ok.injEq, Step.again.injEq] at h
                rw [← h]
                refine ⟨hrg.2.1, ?_, ?_⟩
                · show rd4.inflight = _
                  rw [h5.2, i1]; have := hrg.2.1; omega
                · show rd4.ch = true
                  rw [h5.1]; exact i3
              · intro rd1 x h; simp at h
        · constructor
          · intro st1 h; simp at h
          · intro rd1 x h
            simp only [Except.ok.injEq, Step.ret.injEq] at h
            rw [← h.1]; exact ⟨hrg.2.1, i1⟩

theorem ReadByteWithTimeout_select_inflight (rd : Reader) (s : ReadResult) :
    (∀ rd1, ReadByteWithTimeout.select rd (.done s) = .ok (.again rd1) →
      0 < rd.inflight ∧ rd1.inflight = rd.inflight ∧ rd1.ch = true) ∧
    (∀ rd1 x, ReadByteWithTimeout.select rd (.done s) = .ok (.ret rd1 x) →
      0 < rd.inflight ∧ rd1.inflight = rd.inflight - 1) := by
  simp only [ReadByteWithTimeout.select]
  cases hr : recv rd s with
  | error f => simp
  | ok rd0 =>
    simp only []
    have hrg := recv_ghost hr
    split
    · cases hi : index rd0.buf rd0.l with
      | error f => simp
      | ok c =>
        simp only []
        constructor
        · intro rd1 h; simp at h
        · intro rd1 x h
          simp only [Except.ok.injEq, Step.ret.injEq] at h
          rw [← h.1]; exact ⟨hrg.2.1, hrg.2.2.2.1⟩
    · cases hsh : shiftBufLeft { rd0 with r := rd0.r + s.data.length } with
      | error f => simp
      | ok rd3 =>
        simp only []
        cases hg : goReadToChannel rd3 with
        | error f => simp
        | ok rd4 =>
          simp only []
          have h5 := respawn_inflight hsh hg
          constructor
          · intro rd1 h
            simp only [Except.ok.injEq, Step.again.injEq] at h
            rw [← h]
            refine ⟨hrg.2.1, ?_, ?_⟩
            · rw [h5.2]
              show rd0.inflight + 1 = _
              rw [hrg.2.2.2.1]; have := hrg.2.1; omega
            · rw [h5.1]; exact hrg.2.2.1
          · intro rd1 x h; simp at h

theorem ReadRuneWithTimeout_select_inflight (rd : Reader) (s : ReadResult) :
    (∀ rd1, ReadRuneWithTimeout.select rd (.done s) = .ok (.again rd1) →
      0 < rd.inflight ∧ rd1.inflight = rd.inflight ∧ rd1.ch = true) ∧
    (∀ rd1 x, ReadRuneWithTimeout.select rd (.done s) = .ok (.ret rd1 x) →
      0 < rd.inflight ∧ rd1.inflight = rd.inflight - 1) := by
  simp only [ReadRuneWithTimeout.select]
  cases hr : recv rd s with
  | error f => simp
  | ok rd0 =>
    simp only []
    have hrg := recv_ghost hr
    cases hsl : slice rd0.buf rd0.l (rd0.r + s.data.length) with
    | error f => simp
    | ok src =>
      simp only []
      split
      · split
        · constructor
          · intro rd1 h; simp at h
          · intro rd1 x h
            simp only [Except.ok.injEq, Step.ret.injEq] at h
            rw [← h.1]; exact ⟨hrg.2.1, hrg.2.2.2.1⟩
        · cases ht : takeRune { rd0 with r := rd0.r + s.data.length, ch := false } with
          | error f => simp
          | ok res =>
            obtain ⟨rd2, r, size⟩ := res
            simp only []
            have htg := takeRune_ghost ht
            constructor
            · intro rd1 h; simp at h
            · intro rd1 x h
              simp only [Except.ok.injEq, Step.ret.injEq] at h
              rw [← h.1, htg]; exact ⟨hrg.2.1, hrg.2.2.2.1⟩
      · cases hsh : shiftBufLeft { rd0 with r := rd0.r + s.data.length } with
        | error f => simp
        | ok rd3 =>
          simp only []
          cases hg : goReadToChannel rd3 with
          | error f => simp
          | ok rd4 =>
            simp only []
            have h5 := respawn_inflight hsh hg
            constructor
            · intro rd1 h
              simp only [Except.ok.injEq, Step.again.injEq] at h
              rw [← h]
              refine ⟨hrg.2.1, ?_, ?_⟩
              · rw [h5.2]
                show rd0.inflight + 1 = _
                rw [hrg.2.2.2.1]; have := hrg.2.1; omega
              · rw [h5.1]; exact hrg.2.2.1
            · intro rd1 x h; simp at h

theorem readIfNotReading_count {rd rdW : Reader} (h : readIfNotReading rd = .ok rdW) :
    rdW.ch = true ∧ rdW.inflight = rd.inflight + (if rd.ch then 0 else 1) := by
  have hg := readIfNotReading_ghost h
  refine ⟨hg.1, ?_⟩
  cases hc : rd.ch with
  | true => rw [hg.2.1 hc]; simp
  | false => rw [(hg.2.2 hc).1]; simp

theorem ReadWithTimeout_wait_blocked {st : SliceLoop} {rdW : Reader}
    (h : ReadWithTimeout.wait st [] = .error (.blocked rdW)) :
    rdW.ch = true ∧ rdW.inflight = st.rd.inflight + (if st.rd.ch then 0 else 1) := by
  unfold ReadWithTimeout.wait at h
  cases hr : readIfNotReading st.rd with
  | error f =>
    simp only [hr, Except.error.injEq] at h
    subst h
    cases readIfNotReading_error hr
  | ok rd2 =>
    simp only [hr, ReadWithTimeout.loop, Except.error.injEq, Fault.blocked.injEq] at h
    subst h
    exact readIfNotReading_count hr

theorem ReadWithTimeout_blocked {rd rdW : Reader} {p : Nat}
    (h : ReadWithTimeout rd p [] = .error (.blocked rdW)) :
    (rd.l = rd.r ∨ rd.r - rd.l < p) ∧ rdW.ch = true ∧
      rdW.inflight = rd.inflight + (if rd.ch then 0 else 1) := by
  unfold ReadWithTimeout at h
  split at h
  · cases hc : copyBufTo rd p with
    | error f =>
      simp only [hc, Except.error.injEq] at h
      subst h
      cases copyBufTo_error hc
    | ok res =>
      obtain ⟨rd2, bytes, count⟩ := res
      simp only [hc] at h
      have hcg := (copyBufTo_ghost hc).1
      have hcc := copyBufTo_count hc
      split at h
      · simp at h
      · rename_i hp
        have hw := ReadWithTimeout_wait_blocked h
        refine ⟨Or.inr (by omega), hw.1, ?_⟩
        rw [hw.2]
        show rd2.inflight + (if rd2.ch then 0 else 1) = _
        rw [hcg]
  · rename_i he
    have hw := ReadWithTimeout_wait_blocked h
    refine ⟨Or.inl ?_, hw.1, hw.2⟩
    simpa [isEmpty] using he

theorem ReadByteWithTimeout_blocked {rd rdW : Reader}
    (h : ReadByteWithTimeout rd [] = .error (.blocked rdW)) :
    rd.l = rd.r ∧ rdW.ch = true ∧
      rdW.inflight = rd.inflight + (if rd.ch then 0 else 1) := by
  unfold ReadByteWithTimeout at h
  split at h
  · cases hi : index rd.buf rd.l with
    | error f =>
      simp only [hi, Except.error.injEq] at h
      subst h
      cases index_error hi
    | ok c => simp [hi] at h
  · rename_i he
    cases hr : readIfNotReading rd with
    | error f =>
      simp only [hr, Except.error.injEq] at h
      subst h
      cases readIfNotReading_error hr
    | ok rd2 =>
      simp only [hr, ReadByteWithTimeout.loop, Except.error.injEq, Fault.blocked.injEq] at h
      subst h
      have hc := readIfNotReading_count hr
      refine ⟨?_, hc.1, hc.2⟩
      simpa [isEmpty] using he

theorem ReadRuneWithTimeout_blocked {rd rdW : Reader}
    (h : ReadRuneWithTimeout rd [] = .error (.blocked rdW)) :
    hasFullRune rd = .ok false ∧ rdW.ch = true ∧
      rdW.inflight = rd.inflight + (if rd.ch then 0 else 1) := by
  unfold ReadRuneWithTimeout at h
  cases hf : hasFullRune rd with
  | error f =>
    simp only [hf, Except.error.injEq] at h
    subst h
    cases hasFullRune_error hf
  | ok b =>
    cases b with
    | true =>
      simp only [hf] at h
      cases ht : takeRune rd with
      | error f =>
        simp only [ht, Except.error.injEq] at h
        subst h
        cases takeRune_error ht
      | ok res => simp [ht] at h
    | false =>
      simp only [hf] at h
      cases hr : readIfNotReading rd with
      | error f =>
        simp only [hr, Except.error.injEq] at h
        subst h
        cases readIfNotReading_error hr
      | ok rd2 =>
        simp only [hr, ReadRuneWithTimeout.loop, Except.error.injEq, Fault.blocked.injEq] at h
        subst h
        have hc := readIfNotReading_count hr
        exact ⟨rfl, hc.1, hc.2⟩

theorem syncRead_inflight {rd rd1 : Reader} {p : Nat} {rs : List ReadResult} {t : ReadResult}
    (h : syncRead rd p rs = .ok (rd1, t)) : rd1.inflight = rd.inflight := by
  cases rs with
  | nil => simp [syncRead] at h
  | cons u us =>
    simp only [syncRead] at h
    split at h
    · simp at h
    · simp only [Except.ok.injEq, Prod.mk.injEq] at h
      rw [← h.1]
      simp [finishSourceRead, startSourceRead]

theorem Read_rest_inflight {st : SliceLoop} {rs : List ReadResult} {rd1 : Reader}
    {x : SliceRet} (h : Read.rest st rs = .ok (rd1, x)) :
    rd1.inflight = st.rd.inflight - (if st.rd.ch then 1 else 0) := by
  unfold Read.rest at h
  split at h
  · rename_i hch
    rw [hch]
    cases rs with
    | nil => simp at h
    | cons s rs1 =>
      simp only [] at h
      cases hr : recv st.rd s with
      | error f => simp [hr] at h
      | ok rd0 =>
        simp only [hr] at h
        have hrg := recv_ghost hr
        cases hc : copyBufTo { rd0 with r := rd0.r + s.data.length } st.p with
        | error f => simp [hc] at h
        | ok res =>
          obtain ⟨rd2, bytes, count⟩ := res
          simp only [hc] at h
          have hcg := (copyBufTo_ghost hc).1
          have i1 : rd2.inflight = st.rd.inflight - 1 := by rw [hcg]; exact hrg.2.2.2.1
          split at h
          · simp only [Except.ok.injEq, Prod.mk.injEq] at h
            rw [← h.1]; simpa using i1
          · split at h
            · cases hsr : syncRead rd2 (st.p - count) rs1 with
              | error f => simp [hsr] at h
              | ok res2 =>
                obtain ⟨rd3, t⟩ := res2
                simp only [hsr, Except.ok.injEq, Prod.mk.injEq] at h
                rw [← h.1]
                show rd3.inflight = _
                rw [syncRead_inflight hsr]; simpa using i1
            · simp only [Except.ok.injEq, Prod.mk.injEq] at h
              rw [← h.1]; simpa using i1
  · rename_i hch
    have hch0 : st.rd.ch = false := by simpa using hch
    rw [hch0]
    cases hsr : syncRead st.rd st.p rs with
    | error f => simp [hsr] at h
    | ok res2 =>
      obtain ⟨rd3, t⟩ := res2
      simp only [hsr, Except.ok.injEq, Prod.mk.injEq] at h
      rw [← h.1, syncRead_inflight hsr]
      simp

theorem Read_inflight {rd rd1 : Reader} {p : Nat} {rs : List ReadResult} {x : SliceRet}
    (h : Read rd p rs = .ok (rd1, x)) :
    rd1.inflight = rd.inflight - (if rd.ch then 1 else 0) := by
  unfold Read at h
  split at h
  · cases hc : copyBufTo rd p with
    | error f => simp [hc] at h
    | ok res =>
      obtain ⟨rd2, bytes, count⟩ := res
      simp only [hc] at h
      have hcg := (copyBufTo_ghost hc).1
      have := Read_rest_inflight h
      rw [this]
      show rd2.inflight - (if rd2.ch then 1 else 0) = _
      rw [hcg]
  · exact Read_rest_inflight h


/-- C9, as stated, fails: where `make` can allocate 4096 bytes, the reader
returned by `NewReaderSize` for size 16 and the one returned by `NewReader` have
the handle set, and one read against the source is in flight. -/
theorem NewReaderSize_not_lazy :
    NewReaderSize 4096 16 = .ok ⟨List.replicate 16 0, 0, 0, true, 1, false⟩ ∧
    NewReader 4096 = .ok ⟨List.replicate 4096 0, 0, 0, true, 1, false⟩ ∧
    ¬ ((⟨List.replicate 16 0, 0, 0, true, 1, false⟩ : Reader).ch = false) ∧
    ¬ ((⟨List.replicate 16 0, 0, 0, true, 1, false⟩ : Reader).inflight = 0) ∧
    ¬ ((⟨List.replicate 4096 0, 0, 0, true, 1, false⟩ : Reader).ch = false) ∧
    ¬ ((⟨List.replicate 4096 0, 0, 0, true, 1, false⟩ : Reader).inflight = 0) :=
  ⟨rfl, rfl, by simp, by simp, by simp, by simp⟩

/-- C9 amended.
(1) Construction: when `make` can allocate `max size 16` bytes, `NewReaderSize`
returns a reader with a zeroed buffer of that capacity, both cursors 0, the
handle set and one background read already started; otherwise it panics;
`NewReader` is `NewReaderSize` with size 4096.
(2) `readIfNotReading` starts a background read exactly when the handle is nil
(and then sets the handle); with the handle set it changes nothing.
(3) A timed read that is settled from the buffer starts none: only the read
cursor changes.
(4) A timed read that is waiting before any event got there only because the
buffered data did not settle it (`ReadWithTimeout`: region empty or shorter
than `p`; `ReadByteWithTimeout`: region empty; `ReadRuneWithTimeout`: the region
does not begin with a full rune), and on the way it started a background read
exactly when the handle was nil on entry.
(5) In the loops of the three timed reads: when a result arrives and the loop
goes round again, that result was taken from a read in flight and exactly one
new background read was started (the number in flight is as before, the handle
is set); when the call returns after taking a result, none was started (the
number in flight is one less); on the deadline the reader is left as it is.
(6) `Read` leaves no read started: when it returns, the number in flight is the
one on entry, less the result it took when the handle was set. -/
theorem background_read_starts :
    (∀ (maxLen : Nat) (size : Int), max size 16 ≤ (maxLen : Int) →
      NewReaderSize maxLen size =
        .ok ⟨List.replicate (max size 16).toNat 0, 0, 0, true, 1, false⟩) ∧
    (∀ (maxLen : Nat) (size : Int), (maxLen : Int) < max size 16 →
      NewReaderSize maxLen size = .error .panic) ∧
    (∀ maxLen : Nat, NewReader maxLen = NewReaderSize maxLen 4096) ∧
    (∀ rd : Reader, rd.ch = true → readIfNotReading rd = .ok rd) ∧
    (∀ rd rd1 : Reader, rd.ch = false → readIfNotReading rd = .ok rd1 →
      rd1.ch = true ∧ rd1.inflight = rd.inflight + 1) ∧
    (∀ (rd : Reader) (evs : List Event), rd.l < rd.r → rd.r ≤ rd.buf.length →
      ReadByteWithTimeout rd evs =
        .ok ({ rd with l := rd.l + 1 }, ⟨rd.buf.getD rd.l 0, none⟩)) ∧
    (∀ (rd : Reader) (p : Nat) (evs : List Event), rd.l < rd.r → rd.r ≤ rd.buf.length →
      p ≤ rd.r - rd.l →
      ReadWithTimeout rd p evs =
        .ok ({ rd with l := rd.l + p }, ⟨p, (rd.buf.drop rd.l).take p, none⟩)) ∧
    (∀ rd : Reader, rd.l < rd.r → rd.r ≤ rd.buf.length →
      utf8.FullRune ((rd.buf.drop rd.l).take (rd.r - rd.l)) = true →
      ∃ x : RuneRet, ∀ evs,
        ReadRuneWithTimeout rd evs = .ok ({ rd with l := rd.l + x.size }, x)) ∧
    (∀ (rd rdW : Reader) (p : Nat), ReadWithTimeout rd p [] = .error (.blocked rdW) →
      (rd.l = rd.r ∨ rd.r - rd.l < p) ∧ rdW.ch = true ∧
        rdW.inflight = rd.inflight + (if rd.ch then 0 else 1)) ∧
    (∀ rd rdW : Reader, ReadByteWithTimeout rd [] = .error (.blocked rdW) →
      rd.l = rd.r ∧ rdW.ch = true ∧
        rdW.inflight = rd.inflight + (if rd.ch then 0 else 1)) ∧
    (∀ rd rdW : Reader, ReadRuneWithTimeout rd [] = .error (.blocked rdW) →
      hasFullRune rd = .ok false ∧ rdW.ch = true ∧
        rdW.inflight = rd.inflight + (if rd.ch then 0 else 1)) ∧
    (∀ (st st1 : SliceLoop) (s : ReadResult),
      ReadWithTimeout.select st (.done s) = .ok (.again st1) →
      0 < st.rd.inflight ∧ st1.rd.inflight = st.rd.inflight ∧ st1.rd.ch = true) ∧
    (∀ (st : SliceLoop) (s : ReadResult) (rd1 : Reader) (x : SliceRet),
      ReadWithTimeout.select st (.done s) = .ok (.ret rd1 x) →
      0 < st.rd.inflight ∧ rd1.inflight = st.rd.inflight - 1) ∧
    (∀ st : SliceLoop, ReadWithTimeout.select st .deadline =
      .ok (.ret st.rd ⟨st.n, st.out, if st.n = 0 then some .ErrTimeout else none⟩)) ∧
    (∀ (rd rd1 : Reader) (s : ReadResult),
      ReadByteWithTimeout.select rd (.done s) = .ok (.again rd1) →
      0 < rd.inflight ∧ rd1.inflight = rd.inflight ∧ rd1.ch = true) ∧
    (∀ (rd : Reader) (s : ReadResult) (rd1 : Reader) (x : ByteRet),
      ReadByteWithTimeout.select rd (.done s) = .ok (.ret rd1 x) →
      0 < rd.inflight ∧ rd1.inflight = rd.inflight - 1) ∧
    (∀ rd : Reader, ReadByteWithTimeout.select rd .deadline =
      .ok (.ret rd ⟨0, some .ErrTimeout⟩)) ∧
    (∀ (rd rd1 : Reader) (s : ReadResult),
      ReadRuneWithTimeout.select rd (.done s) = .ok (.again rd1) →
      0 < rd.inflight ∧ rd1.inflight = rd.inflight ∧ rd1.ch = true) ∧
    (∀ (rd : Reader) (s : ReadResult) (rd1 : Reader) (x : RuneRet),
      ReadRuneWithTimeout.select rd (.done s) = .ok (.ret rd1 x) →
      0 < rd.inflight ∧ rd1.inflight = rd.inflight - 1) ∧
    (∀ rd : Reader, ReadRuneWithTimeout.select rd .deadline =
      .ok (.ret rd ⟨0, 0, some .ErrTimeout⟩)) ∧
    (∀ (rd rd1 : Reader) (p : Nat) (rs : List ReadResult) (x : SliceRet),
      Read rd p rs = .ok (rd1, x) →
      rd1.inflight = rd.inflight - (if rd.ch then 1 else 0)) := by
  refine ⟨NewReaderSize_ok, NewReaderSize_panics, fun _ => rfl, ?_, ?_, ?_, ?_, ?_, ?_, ?_, ?_,
    ?_, ?_, fun _ => rfl, ?_, ?_, fun _ => rfl, ?_, ?_, fun _ => rfl, ?_⟩
  · intro rd h
    simp [readIfNotReading, h]
  · intro rd rd1 h hrd
    have hg := readIfNotReading_ghost hrd
    exact ⟨hg.1, (hg.2.2 h).1⟩
  · intro rd evs hl hr
    exact ReadByteWithTimeout_buffered rd hl hr evs
  · intro rd p evs hl hr hp
    exact ReadWithTimeout_buffered rd hl hr p evs hp
  · intro rd hl hr hfull
    obtain ⟨x, _, hx⟩ := ReadRuneWithTimeout_buffered rd hl hr hfull
    exact ⟨x, hx⟩
  · intro rd rdW p h
    exact ReadWithTimeout_blocked h
  · intro rd rdW h
    exact ReadByteWithTimeout_blocked h
  · intro rd rdW h
    exact ReadRuneWithTimeout_blocked h
  · intro st st1 s h
    exact (ReadWithTimeout_select_inflight st s).1 st1 h
  · intro st s rd1 x h
    exact (ReadWithTimeout_select_inflight st s).2 rd1 x h
  · intro rd rd1 s h
    exact (ReadByteWithTimeout_select_inflight rd s).1 rd1 h
  · intro rd s rd1 x h
    exact (ReadByteWithTimeout_select_inflight rd s).2 rd1 x h
  · intro rd rd1 s h
    exact (ReadRuneWithTimeout_select_inflight rd s).1 rd1 h
  · intro rd s rd1 x h
    exact (ReadRuneWithTimeout_select_inflight rd s).2 rd1 x h
  · intro rd rd1 p rs x h
    exact Read_inflight h

/-- C9 amended, at concrete inputs: the constructor for size 16 where `make` can
allocate 4096 bytes; a `ReadWithTimeout` with `len(p) = 0` on an empty reader
with nil handle, which is waiting before any event; and a `select` of
`ReadWithTimeout` (`len(p) = 20`) that receives a result filling the whole
buffer of 16 bytes and goes round again. -/
theorem background_read_starts_witness :
    NewReaderSize 4096 16 = .ok ⟨List.replicate (max (16 : Int) 16).toNat 0, 0, 0, true, 1, false⟩ ∧
    (((⟨List.replicate 16 0, 0, 0, false, 0, false⟩ : Reader).l =
          (⟨List.replicate 16 0, 0, 0, false, 0, false⟩ : Reader).r ∨
        (⟨List.replicate 16 0, 0, 0, false, 0, false⟩ : Reader).r -
          (⟨List.replicate 16 0, 0, 0, false, 0, false⟩ : Reader).l < 0) ∧
      (⟨List.replicate 16 0, 0, 0, true, 1, false⟩ : Reader).ch = true ∧
      (⟨List.replicate 16 0, 0, 0, true, 1, false⟩ : Reader).inflight =
        (⟨List.replicate 16 0, 0, 0, false, 0, false⟩ : Reader).inflight +
          (if (⟨List.replicate 16 0, 0, 0, false, 0, false⟩ : Reader).ch then 0 else 1)) ∧
    (0 < (⟨⟨List.replicate 16 0, 0, 0, true, 1, false⟩, 0, [], 20⟩ : SliceLoop).rd.inflight ∧
      (⟨⟨List.replicate 16 7, 0, 0, true, 1, false⟩, 16, List.replicate 16 7, 4⟩ :
          SliceLoop).rd.inflight =
        (⟨⟨List.replicate 16 0, 0, 0, true, 1, false⟩, 0, [], 20⟩ : SliceLoop).rd.inflight ∧
      (⟨⟨List.replicate 16 7, 0, 0, true, 1, false⟩, 16, List.replicate 16 7, 4⟩ :
          SliceLoop).rd.ch = true) :=
  ⟨background_read_starts.1 4096 16 (by decide),
    background_read_starts.2.2.2.2.2.2.2.2.1
      ⟨List.replicate 16 0, 0, 0, false, 0, false⟩ ⟨List.replicate 16 0, 0, 0, true, 1, false⟩
      0 rfl,
    background_read_starts.2.2.2.2.2.2.2.2.2.2.2.1
      ⟨⟨List.replicate 16 0, 0, 0, true, 1, false⟩, 0, [], 20⟩
      ⟨⟨List.replicate 16 7, 0, 0, true, 1, false⟩, 16, List.replicate 16 7, 4⟩
      ⟨List.replicate 16 7, none⟩ rfl⟩

end Timeout
